import Mathlib

/-!
Verification development for the HalluciNOT claim-verification pipeline.

The Python sources are shallowly embedded: strings become lists of
characters, floats become exact rationals, per-object mutation becomes
functional record update, and each regular expression that the code uses
is compiled by hand into an executable character-level matcher.  The
embedding of every function keeps the source's control flow, defaults and
edge cases; modelling decisions (random uuids, Python's process-dependent
string hash, float formatting) are noted at the definitions concerned.
-/

/-- Python strings are modelled as lists of characters. -/
abbrev Str := List Char

/-- The character class of Python's default whitespace (used by `str.strip`,
`str.split` and the regex class `\s`, restricted to ASCII). -/
def isPySpace (c : Char) : Bool :=
  c = ' ' || c = '\t' || c = '\n' || c = '\x0d' || c = '\x0b' || c = '\x0c'

/-- The regex word class `\w` (ASCII): letters, digits, underscore. -/
def isWordChar (c : Char) : Bool :=
  c.isAlpha || c.isDigit || c = '_'

/-- `str.lower()` (ASCII). -/
def pyLower (s : Str) : Str := s.map Char.toLower

/-- `str.strip()` with no argument: remove leading and trailing whitespace. -/
def pyStrip (s : Str) : Str :=
  ((s.dropWhile isPySpace).reverse.dropWhile isPySpace).reverse

/-- Python slicing `s[a:b]` for non-negative bounds (as at every call site
of the embedded code): clamped, never raising. -/
def pySlice (s : Str) (a b : Nat) : Str := (s.take b).drop a

/-- Python slicing `s[a:]` for a non-negative start. -/
def pySliceFrom (s : Str) (a : Nat) : Str := s.drop a

/-- Python slicing `s[:b]` for a non-negative stop. -/
def pySliceTo (s : Str) (b : Nat) : Str := s.take b

/-- Helper for `str.find`: index of the first occurrence of `p`, counting
from `i`. -/
def strFindAux (p : Str) : Nat → Str → Option Nat
  | i, [] => if p.isPrefixOf [] then some i else none
  | i, c :: s => if p.isPrefixOf (c :: s) then some i else strFindAux p (i + 1) s

/-- `t.find(p)`: `some` index of the first occurrence of `p` in `t`, or
`none` where Python returns `-1`. -/
def strFind (t p : Str) : Option Nat := strFindAux p 0 t

/-- Python's substring test `p in t`. -/
def pyContains (t p : Str) : Bool := (strFind t p).isSome

/-- `str.split()` with no argument, first element (`text.split()[0]` guarded
by `if text.split() else ""`): the first maximal run of non-whitespace. -/
def firstWord (s : Str) : Str :=
  (s.dropWhile isPySpace).takeWhile (fun c => !isPySpace c)

/-- `str(n)` for a natural number. -/
def natToStr (n : Nat) : Str := Nat.toDigits 10 n

/-- f-string formatting `{q:.2f}`.  Python formats the underlying binary
double with round-half-even; under the exact-rational abstraction of floats
this is modelled as rounding `q * 100` half away from zero and printing two
decimals. -/
def fmt2 (q : ℚ) : Str :=
  let sign : Str := if q < 0 then ['-'] else []
  let n : Nat := (Int.floor (|q| * 100 + 1 / 2)).toNat
  let ip := n / 100
  let fp := n % 100
  sign ++ natToStr ip ++ ['.'] ++ (if fp < 10 then '0' :: natToStr fp else natToStr fp)

/-- A position-aware scan used by the hand-compiled regex searches:
`searchPos f prev s` is true when `f` matches at some suffix of `s`, where
`f` receives the character immediately preceding the suffix (for the word
boundaries `\b` and the lookbehinds). -/
def searchPos (f : Option Char → Str → Bool) : Option Char → Str → Bool
  | prev, [] => f prev []
  | prev, c :: rest => f prev (c :: rest) || searchPos f (some c) rest

/-- A word boundary `\b` immediately before the current position, given the
preceding character (boundary against the start of the string when there is
none) and the fact that the character at the position is a word character. -/
def boundaryBefore (prev : Option Char) : Bool :=
  match prev with
  | none => true
  | some p => !isWordChar p

/-- A word boundary `\b` immediately after a word character, looking at the
rest of the string. -/
def boundaryAfter (rest : Str) : Bool :=
  match rest with
  | [] => true
  | c :: _ => !isWordChar c

theorem pySlice_zero_len (s : Str) : pySlice s 0 s.length = s := by
  simp [pySlice]

/-! ### Hand-compiled regular expressions

Each definition below compiles one regular expression literal from the
Python sources into an executable matcher.  Searches (`re.search`) become
position scans; `re.findall` / `re.finditer` become non-overlapping
left-to-right scans.  Greedy repetition with the engine's backtracking is
compiled by trying the longer alternative first. -/

/-- Match a literal, returning the rest of the string. -/
def tryLit (lit : Str) (s : Str) : Option Str :=
  if lit.isPrefixOf s then some (s.drop lit.length) else none

/-- Match a literal case-insensitively (`re.IGNORECASE`). -/
def tryLitCI (lit : Str) (s : Str) : Option Str :=
  if pyLower (s.take lit.length) = lit && lit.length ≤ s.length then some (s.drop lit.length)
  else none

/-- Match exactly `n` digits, returning the rest. -/
def tryDigits (n : Nat) (s : Str) : Option Str :=
  if (s.take n).length = n && (s.take n).all Char.isDigit then some (s.drop n) else none

/-- `\d{4}\b` directly after the current position. -/
def year4Boundary (s : Str) : Bool :=
  match tryDigits 4 s with
  | some rest => boundaryAfter rest
  | none => false

/-- One match attempt of `\b(in|on|during|since) (the )?\d{4}\b` at the
current position (the first alternative of the extractor's date pattern). -/
def dateWordYearAt (prev : Option Char) (s : Str) : Bool :=
  boundaryBefore prev &&
  ["in".data, "on".data, "during".data, "since".data].any (fun w =>
    match tryLit (w ++ [' ']) s with
    | some rest =>
      (match tryLit "the ".data rest with
       | some rest2 => year4Boundary rest2 || year4Boundary rest
       | none => year4Boundary rest)
    | none => false)

/-- One match attempt of `\b\d{1,2}/\d{1,2}/\d{2,4}\b` at the current
position, returning the length of the match (greedy: longer digit groups
are tried first, as the backtracking engine does). -/
def dateSlashLenAt (prev : Option Char) (s : Str) : Option Nat :=
  if !boundaryBefore prev then none
  else
    let third (r4 : Str) (n3 : Nat) : Option Nat :=
      match tryDigits n3 r4 with
      | some r5 => if boundaryAfter r5 then some n3 else none
      | none => none
    let second (r2 : Str) (n2 : Nat) : Option Nat :=
      match tryDigits n2 r2 with
      | some r3 =>
        match tryLit ['/'] r3 with
        | some r4 =>
          match ((third r4 4).orElse fun _ => (third r4 3).orElse fun _ => third r4 2) with
          | some n3 => some (n2 + 1 + n3)
          | none => none
        | none => none
      | none => none
    let first (n1 : Nat) : Option Nat :=
      match tryDigits n1 s with
      | some r1 =>
        match tryLit ['/'] r1 with
        | some r2 =>
          match ((second r2 2).orElse fun _ => second r2 1) with
          | some m => some (n1 + 1 + m)
          | none => none
        | none => none
      | none => none
    (first 2).orElse fun _ => first 1

/-- One match attempt of `\b[A-Z][a-z]+\b` at the current position. -/
def properNounAt (prev : Option Char) (s : Str) : Bool :=
  boundaryBefore prev &&
  match s with
  | [] => false
  | c :: rest =>
    c.isUpper &&
      (let lows := rest.takeWhile Char.isLower
       decide (1 ≤ lows.length) && boundaryAfter (rest.drop lows.length))

/-- One match attempt of `\b\d+(\.\d+)?\b` at the current position. -/
def numBareAt (prev : Option Char) (s : Str) : Bool :=
  boundaryBefore prev &&
  match s with
  | [] => false
  | c :: _ =>
    c.isDigit &&
      (let ds := s.takeWhile Char.isDigit
       let rest := s.drop ds.length
       (match rest with
        | '.' :: r2 =>
          let fs := r2.takeWhile Char.isDigit
          decide (1 ≤ fs.length) && boundaryAfter (r2.drop fs.length)
        | _ => false) ||
       boundaryAfter rest)

/-- One match attempt of `\b(w₁|w₂|…)\b` at the current position, for a
list of plain word alternatives. -/
def wordAltsAt (words : List Str) (prev : Option Char) (s : Str) : Bool :=
  boundaryBefore prev &&
  words.any (fun w =>
    match tryLit w s with
    | some rest => boundaryAfter rest
    | none => false)

/-- Run a positional matcher as `re.search`: does it match anywhere? -/
def reSearch (f : Option Char → Str → Bool) (s : Str) : Bool :=
  searchPos f none s

/-- `re.search(r'\b(in|on|during|since) (the )?\d{4}\b|\b\d{1,2}/\d{1,2}/\d{2,4}\b', s)`. -/
def hasDatePattern (s : Str) : Bool :=
  reSearch (fun p r => dateWordYearAt p r || (dateSlashLenAt p r).isSome) s

/-- `re.search(r'\b[A-Z][a-z]+\b', s)`. -/
def hasProperNoun (s : Str) : Bool := reSearch properNounAt s

/-- `re.search(r'\d', s)`. -/
def hasDigit (s : Str) : Bool := s.any Char.isDigit

/-- One match attempt of `\$\d+|\d+ dollars|\d+ euros|\d+ yen` (searched on
the lowered text; no word boundaries in the pattern). -/
def moneySimpleAt (_prev : Option Char) (s : Str) : Bool :=
  (match s with
   | '$' :: r => decide (1 ≤ (r.takeWhile Char.isDigit).length)
   | _ => false) ||
  (let ds := s.takeWhile Char.isDigit
   let rest := s.drop ds.length
   decide (1 ≤ ds.length) &&
     ([" dollars".data, " euros".data, " yen".data].any (fun w => w.isPrefixOf rest)))

/-- `( )?%` after a number: an optional single space, then the percent sign. -/
def optSpacePercent (r : Str) : Bool :=
  (match r with
   | ' ' :: r2 => (match r2 with | '%' :: _ => true | _ => false)
   | _ => false) ||
  (match r with | '%' :: _ => true | _ => false)

/-- One match attempt of `\d+(\.\d+)?( )?%|\d+( )?(percent|percentage)`
(searched on the lowered text). -/
def percentAt (_prev : Option Char) (s : Str) : Bool :=
  let ds := s.takeWhile Char.isDigit
  let rest := s.drop ds.length
  decide (1 ≤ ds.length) &&
    (((match rest with
       | '.' :: r2 =>
         let fs := r2.takeWhile Char.isDigit
         decide (1 ≤ fs.length) && optSpacePercent (r2.drop fs.length)
       | _ => false) ||
      optSpacePercent rest) ||
     ((match rest with
       | ' ' :: r2 => ["percent".data, "percentage".data].any (fun w => w.isPrefixOf r2)
       | _ => false) ||
      ["percent".data, "percentage".data].any (fun w => w.isPrefixOf rest)))

/-- The unit alternatives of the quantity pattern. -/
def quantityUnits : List Str :=
  ["kg".data, "mb".data, "gb".data, "tb".data, "mm".data, "cm".data, "m".data,
   "km".data, "inch".data, "inches".data, "feet".data, "foot".data,
   "yards".data, "miles".data]

/-- One match attempt of
`\d+( )?(kg|mb|gb|tb|mm|cm|m|km|inch|inches|feet|foot|yards|miles)`
(searched on the lowered text). -/
def quantityAt (_prev : Option Char) (s : Str) : Bool :=
  let ds := s.takeWhile Char.isDigit
  let rest := s.drop ds.length
  decide (1 ≤ ds.length) &&
    ((match rest with
      | ' ' :: r2 => quantityUnits.any (fun w => w.isPrefixOf r2)
      | _ => false) ||
     quantityUnits.any (fun w => w.isPrefixOf rest))

/-- One match attempt of `\b\d{1,2}(st|nd|rd|th)?\b` at the current
position. -/
def dayNumAt (prev : Option Char) (s : Str) : Bool :=
  boundaryBefore prev &&
  (let withSuffix (rest : Str) : Bool :=
     ["st".data, "nd".data, "rd".data, "th".data].any (fun suf =>
       match tryLit suf rest with
       | some r2 => boundaryAfter r2
       | none => false)
   let fromDigits (n : Nat) : Bool :=
     match tryDigits n s with
     | some rest => withSuffix rest || boundaryAfter rest
     | none => false
   fromDigits 2 || fromDigits 1)

/-- One match attempt of `\b[A-Z][a-z]+ (is|was|has|have|will)\b` at the
current position (case-sensitive). -/
def entityPatternAt (prev : Option Char) (s : Str) : Bool :=
  boundaryBefore prev &&
  match s with
  | [] => false
  | c :: rest =>
    c.isUpper &&
      (let lows := rest.takeWhile Char.isLower
       let rest2 := rest.drop lows.length
       decide (1 ≤ lows.length) &&
         (match rest2 with
          | ' ' :: r3 =>
            ["is".data, "was".data, "has".data, "have".data, "will".data].any (fun v =>
              match tryLit v r3 with
              | some r4 => boundaryAfter r4
              | none => false)
          | _ => false))

/-- One match attempt of `\b[A-Za-z]+ (is|are) (a|an|the) [A-Za-z]+\b` at
the current position (case-sensitive). -/
def defPatternAt (prev : Option Char) (s : Str) : Bool :=
  boundaryBefore prev &&
  (let subj := s.takeWhile Char.isAlpha
   let rest := s.drop subj.length
   decide (1 ≤ subj.length) &&
     (match rest with
      | ' ' :: r2 =>
        ["is ".data, "are ".data].any (fun v =>
          match tryLit v r2 with
          | some r3 =>
            ["a ".data, "an ".data, "the ".data].any (fun art =>
              match tryLit art r3 with
              | some r4 =>
                let obj := r4.takeWhile Char.isAlpha
                decide (1 ≤ obj.length) && boundaryAfter (r4.drop obj.length)
              | none => false)
          | none => false)
      | _ => false))

/-- The repetition `(?:[A-Z][a-zA-Z]+\s?)*` of the proper-noun chain
pattern: consume maximal greedy repetitions, returning the consumed
length.  `fuel` bounds the recursion by the remaining string length. -/
def properChainReps : Nat → Str → Nat
  | 0, _ => 0
  | _ + 1, [] => 0
  | fuel + 1, c :: rr =>
    if c.isUpper then
      let as := rr.takeWhile Char.isAlpha
      if 1 ≤ as.length then
        let rr2 := rr.drop as.length
        match rr2 with
        | w :: rr3 =>
          if isPySpace w then 1 + as.length + 1 + properChainReps fuel rr3
          else 1 + as.length + properChainReps fuel rr2
        | [] => 1 + as.length
      else 0
    else 0

/-- One match attempt of `\b[A-Z][a-zA-Z]+ (?:[A-Z][a-zA-Z]+\s?)*` at the
current position, returning the length of the (greedy) match. -/
def properChainLenAt (prev : Option Char) (s : Str) : Option Nat :=
  if !boundaryBefore prev then none
  else
    match s with
    | [] => none
    | c :: rest =>
      if c.isUpper then
        let as := rest.takeWhile Char.isAlpha
        if 1 ≤ as.length then
          let rest2 := rest.drop as.length
          match rest2 with
          | ' ' :: r3 => some (1 + as.length + 1 + properChainReps r3.length r3)
          | _ => none
        else none
      else none

/-- The month-name alternatives of the date patterns (stored lowered; the
patterns that use them are case-insensitive or are run on lowered text). -/
def monthNames : List Str :=
  ["january".data, "february".data, "march".data, "april".data, "may".data,
   "june".data, "july".data, "august".data, "september".data,
   "october".data, "november".data, "december".data]

/-- One match attempt of
`\b(January|…|December) \d{1,2}(st|nd|rd|th)?, \d{4}\b` (with
`re.IGNORECASE`) at the current position, returning the match length. -/
def monthDateLenAt (prev : Option Char) (s : Str) : Option Nat :=
  if !boundaryBefore prev then none
  else
    let tailFrom (rest : Str) (consumed : Nat) : Option Nat :=
      -- after the digits: optional ordinal suffix, then ", " and four digits
      let closing (r : Str) (c2 : Nat) : Option Nat :=
        match tryLit ", ".data r with
        | some r2 =>
          match tryDigits 4 r2 with
          | some r3 => if boundaryAfter r3 then some (c2 + 2 + 4) else none
          | none => none
        | none => none
      let withSuffix : Option Nat :=
        ["st".data, "nd".data, "rd".data, "th".data].foldl
          (fun acc suf =>
            acc.orElse fun _ =>
              match tryLitCI suf rest with
              | some r2 => closing r2 (consumed + 2)
              | none => none)
          none
      withSuffix.orElse fun _ => closing rest consumed
    let days (r1 : Str) (consumed : Nat) : Option Nat :=
      let fromDigits (n : Nat) : Option Nat :=
        match tryDigits n r1 with
        | some r2 => tailFrom r2 (consumed + n)
        | none => none
      (fromDigits 2).orElse fun _ => fromDigits 1
    monthNames.foldl
      (fun acc m =>
        acc.orElse fun _ =>
          match tryLitCI (m ++ [' ']) s with
          | some r1 => days r1 (m.length + 1)
          | none => none)
      none

/-- The greedy repetition `(?:,\d{3})*`: number of repetitions available at
the current position (each consumes a comma and exactly three digits). -/
def commaGroupCount : Nat → Str → Nat
  | 0, _ => 0
  | fuel + 1, s =>
    match tryLit [','] s with
    | some r =>
      match tryDigits 3 r with
      | some r2 => 1 + commaGroupCount fuel r2
      | none => 0
    | none => 0

/-- The optional fraction `(?:\.\d{2})?`: the consumed length (3 or 0)
together with the rest, greedy. -/
def tryFrac2 (s : Str) : Option Str :=
  match tryLit ['.'] s with
  | some r => (tryDigits 2 r).map id
  | none => none

/-- One match attempt of
`\$\d+(?:,\d{3})*(?:\.\d{2})?|\d+(?:,\d{3})*(?:\.\d{2})? (dollars|euros|pounds)`
at the current position, returning the match length.  The second
alternative backtracks over the number of comma groups and the optional
fraction; the engine's preference order (more groups first, fraction
before no fraction) is followed. -/
def moneyCurrency (r : Str) : Option Nat :=
  [" dollars".data, " euros".data, " pounds".data].foldl
    (fun acc w => acc.orElse fun _ => if w.isPrefixOf r then some w.length else none)
    none

/-- Backtracking over the comma-group count for the second money
alternative: try `k` groups (fraction first), then `k - 1`, … down to 0. -/
def moneyTryGroups (ds : Nat) (r2 : Str) : Nat → Option Nat
  | 0 =>
    let rk := r2
    (match tryFrac2 rk with
     | some r3 => (moneyCurrency r3).map (fun cl => ds + 3 + cl)
     | none => none).orElse
      fun _ => (moneyCurrency rk).map (fun cl => ds + cl)
  | k + 1 =>
    let rk := r2.drop ((k + 1) * 4)
    ((match tryFrac2 rk with
      | some r3 => (moneyCurrency r3).map (fun cl => ds + (k + 1) * 4 + 3 + cl)
      | none => none).orElse
       fun _ => (moneyCurrency rk).map (fun cl => ds + (k + 1) * 4 + cl)).orElse
      fun _ => moneyTryGroups ds r2 k

def moneyFullLenAt (_prev : Option Char) (s : Str) : Option Nat :=
  match s with
  | '$' :: r =>
    let ds := r.takeWhile Char.isDigit
    if 1 ≤ ds.length then
      let r2 := r.drop ds.length
      let gs := commaGroupCount r2.length r2
      let r3 := r2.drop (gs * 4)
      match tryFrac2 r3 with
      | some _ => some (1 + ds.length + gs * 4 + 3)
      | none => some (1 + ds.length + gs * 4)
    else none
  | _ =>
    let ds := s.takeWhile Char.isDigit
    if 1 ≤ ds.length then
      let r2 := s.drop ds.length
      let gmax := commaGroupCount r2.length r2
      moneyTryGroups ds.length r2 gmax
    else none

/-- A non-overlapping left-to-right scan (`re.finditer`): the list of
`(start, length)` spans of the matches of a positional matcher.  `fuel`
bounds recursion by the remaining string length. -/
def finditerAux (m : Option Char → Str → Option Nat) :
    Nat → Option Char → Nat → Str → List (Nat × Nat)
  | 0, _, _, _ => []
  | fuel + 1, prev, i, s =>
    match s with
    | [] => []
    | c :: rest =>
      match m prev s with
      | some len =>
        let step := max len 1
        (i, len) :: finditerAux m fuel ((s.take step).getLast?) (i + step) (s.drop step)
      | none => finditerAux m fuel (some c) (i + 1) rest

/-- `re.finditer` over a whole string. -/
def reFinditer (m : Option Char → Str → Option Nat) (s : Str) : List (Nat × Nat) :=
  finditerAux m s.length none 0 s

/-- `re.findall(r'\d+(\.\d+)?', s)`.  The pattern has one capturing group
(the fractional part), so `findall` returns the *group* captures: `".8"`
for `365.8` and `""` for a number with no fraction — not the numbers
themselves. -/
def findNumberGroupsAux : Nat → Str → List Str
  | 0, _ => []
  | fuel + 1, s =>
    match s with
    | [] => []
    | c :: rest =>
      if c.isDigit then
        let ds := s.takeWhile Char.isDigit
        let r2 := s.drop ds.length
        match r2 with
        | '.' :: r3 =>
          let fs := r3.takeWhile Char.isDigit
          if 1 ≤ fs.length then ('.' :: fs) :: findNumberGroupsAux fuel (r3.drop fs.length)
          else [] :: findNumberGroupsAux fuel r2
        | _ => [] :: findNumberGroupsAux fuel r2
      else findNumberGroupsAux fuel rest

/-- `re.findall(r'\d+(\.\d+)?', s)` (see `findNumberGroupsAux`). -/
def reFindallNumberGroups (s : Str) : List Str := findNumberGroupsAux s.length s

/-- One match attempt of `\b(19|20)\d{2}\b` at the current position,
returning the captured group (`"19"` or `"20"`). -/
def yearGroupAt (prev : Option Char) (s : Str) : Option Str :=
  if !boundaryBefore prev then none
  else
    ["19".data, "20".data].foldl
      (fun acc w =>
        acc.orElse fun _ =>
          match tryLit w s with
          | some r =>
            match tryDigits 2 r with
            | some r2 => if boundaryAfter r2 then some w else none
            | none => none
          | none => none)
      none

/-- `re.findall(r'\b(19|20)\d{2}\b|\b\d{1,2}/\d{1,2}/\d{2,4}\b', s)`
(the temporal scorer's date pattern).  The pattern has one capturing group
(`(19|20)`), so `findall` returns `"19"`/`"20"` for a year match and `""`
for a slash-date match — not the dates themselves. -/
def findDateGroupsAux : Nat → Option Char → Str → List Str
  | 0, _, _ => []
  | fuel + 1, prev, s =>
    match s with
    | [] => []
    | c :: rest =>
      match yearGroupAt prev s with
      | some g => g :: findDateGroupsAux fuel ((s.take 4).getLast?) (s.drop 4)
      | none =>
        match dateSlashLenAt prev s with
        | some len =>
          let step := max len 1
          [] :: findDateGroupsAux fuel ((s.take step).getLast?) (s.drop step)
        | none => findDateGroupsAux fuel (some c) rest

/-- `re.findall` for the temporal scorer's date pattern (group captures). -/
def reFindallDateGroups (s : Str) : List Str := findDateGroupsAux s.length none s

/-- One match attempt of `\b(January|…|December)\b` with `re.IGNORECASE`,
returning the length of the matched month name. -/
def monthLenAt (prev : Option Char) (s : Str) : Option Nat :=
  if !boundaryBefore prev then none
  else
    monthNames.foldl
      (fun acc m =>
        acc.orElse fun _ =>
          match tryLitCI m s with
          | some r => if boundaryAfter r then some m.length else none
          | none => none)
      none

/-- `re.findall(r'\b(January|…|December)\b', s, re.IGNORECASE)`: the
matched month names, in the original casing of the text. -/
def reFindallMonths (s : Str) : List Str :=
  (reFinditer monthLenAt s).map (fun p => pySlice s p.1 (p.1 + p.2))

/-- Maximal runs of word characters (`\w+`), with fuel. -/
def wordRunsAux : Nat → Str → List Str
  | 0, _ => []
  | fuel + 1, s =>
    match s with
    | [] => []
    | c :: rest =>
      if isWordChar c then
        (c :: rest.takeWhile isWordChar) :: wordRunsAux fuel (rest.dropWhile isWordChar)
      else wordRunsAux fuel rest

/-- Maximal runs of word characters of a string. -/
def wordRuns (s : Str) : List Str := wordRunsAux s.length s

/-- `re.findall(r'\b[A-Za-z]{k,}\b', s)`: exactly the maximal `\w` runs
that consist solely of letters and have length at least `k` (a digit or an
underscore adjacent to a letter run defeats the word boundary, and every
shorter backtracked attempt ends between two letters). -/
def alphaTokens (k : Nat) (s : Str) : List Str :=
  (wordRuns s).filter (fun r => r.all Char.isAlpha && decide (k ≤ r.length))

/-- Cardinality of the Python set of a list of strings. -/
def pySetCard (l : List Str) : Nat := l.dedup.length

/-- `len(set(a).intersection(set(b)))`. -/
def pySetInterCard (a b : List Str) : Nat :=
  (a.dedup.filter (fun x => b.contains x)).length

/-- `len(set(a).union(set(b)))`. -/
def pySetUnionCard (a b : List Str) : Nat := (a ++ b).dedup.length

/-- Is the Python set intersection of two lists non-empty? -/
def pySetInterNonempty (a b : List Str) : Bool := a.any (fun x => b.contains x)

/-- The split point of
`re.split(r'(?<!\w\.\w.)(?<![A-Z][a-z]\.)(?<=\.|\?|\!)\s', text)`:
a whitespace character whose predecessor is sentence-terminal punctuation,
excluding the two negative lookbehinds (`recent` is the reversed prefix of
the text before the current character, so `recent[0]` is the character at
distance 1, etc.; a lookbehind that runs past the start of the text fails,
so the negative lookbehinds succeed there). -/
def isSentSplitPoint (recent : Str) (c : Char) : Bool :=
  isPySpace c &&
  (match recent with
   | r0 :: _ => r0 = '.' || r0 = '?' || r0 = '!'
   | [] => false) &&
  !(match recent with
    | r0 :: r1 :: r2 :: r3 :: _ =>
      -- (?<!\w\.\w.) : the four preceding characters match \w \. \w .
      isWordChar r3 && r2 = '.' && isWordChar r1 && r0 ≠ '\n'
    | _ => false) &&
  !(match recent with
    | r0 :: r1 :: r2 :: _ =>
      -- (?<![A-Z][a-z]\.) : the three preceding characters match [A-Z][a-z]\.
      r2.isUpper && r1.isLower && r0 = '.'
    | _ => false)

/-- The splitting scan: `recent` is the reversed prefix already consumed,
`cur` the reversed current piece. -/
def sentSplitGo : Str → Str → Str → List Str
  | _, cur, [] => [cur.reverse]
  | recent, cur, c :: rest =>
    if isSentSplitPoint recent c then cur.reverse :: sentSplitGo (c :: recent) [] rest
    else sentSplitGo (c :: recent) (c :: cur) rest

/-- `re.split(r'(?<!\w\.\w.)(?<![A-Z][a-z]\.)(?<=\.|\?|\!)\s', text)` —
the sentence splitter shared by the rule-based extractor and the excerpt
extraction. -/
def reSplitSentences (t : Str) : List Str := sentSplitGo [] [] t

/-! ### Data model (`utils/common.py`) -/

/-- `ClaimType`: types of factual claims. -/
inductive ClaimType where
  | numerical
  | temporal
  | entity
  | causal
  | comparative
  | definitional
  | citation
  | other
deriving DecidableEq, Repr

/-- `ClaimType.value`: the enum's string value. -/
def ClaimType.value : ClaimType → Str
  | .numerical => "numerical".data
  | .temporal => "temporal".data
  | .entity => "entity".data
  | .causal => "causal".data
  | .comparative => "comparative".data
  | .definitional => "definitional".data
  | .citation => "citation".data
  | .other => "other".data

/-- `BoundaryType`: document boundary types (the first constructor is the
Python member `SECTION`; `section` is reserved in Lean). -/
inductive BoundaryType where
  | sec
  | paragraph
  | list_item
  | table
  | figure
  | heading
  | quote
  | code
  | other
deriving DecidableEq, Repr

/-- `BoundaryType.value`. -/
def BoundaryType.value : BoundaryType → Str
  | .sec => "section".data
  | .paragraph => "paragraph".data
  | .list_item => "list_item".data
  | .table => "table".data
  | .figure => "figure".data
  | .heading => "heading".data
  | .quote => "quote".data
  | .code => "code".data
  | .other => "other".data

/-- `InterventionType`: interventions for handling hallucinations. -/
inductive InterventionType where
  | none
  | correction
  | uncertainty
  | removal
  | source_request
  | clarification
deriving DecidableEq, Repr

/-- An entity dictionary `{"text": …, "label": …, "start": …, "end": …}`
(`stop` stands for the Python key `"end"`, which is reserved in Lean). -/
structure Entity where
  text : Str
  label : Str
  start : Nat
  stop : Nat
deriving DecidableEq, Repr

/-- `DocumentChunk`: a chunk of a source document. -/
structure DocumentChunk where
  id : Str
  text : Str
  source_document : Str
  start_idx : Nat := 0
  end_idx : Nat := 0
  metadata : List (Str × Str) := []
  embedding : Option (List ℚ) := Option.none
  boundary_type : Option BoundaryType := Option.none
  parent_section : Option Str := Option.none
  related_chunks : List Str := []
  entities : List Entity := []
deriving DecidableEq, Repr

/-- The `context` dictionary of a `SourceReference` as the mapper builds
it: the keys `"boundary_type"` and `"parent_section"`. -/
structure SourceContext where
  boundary_type : Option Str := Option.none
  parent_section : Option Str := Option.none
deriving DecidableEq, Repr

/-- `SourceReference`: a scored link from a claim to a chunk. -/
structure SourceReference where
  chunk_id : Str
  document_id : Str
  text_excerpt : Str
  alignment_score : ℚ := 0
  context : SourceContext := {}
deriving DecidableEq, Repr

/-- `Claim`: a factual assertion extracted from an LLM response.
`uuid.uuid4()` draws a fresh random identifier; identifiers play no role
in any verified property and are modelled as the empty string. -/
structure Claim where
  id : Str
  text : Str
  type : ClaimType
  start_idx : Nat
  end_idx : Nat
  entities : List Entity := []
  context : List (Str × Str) := []
  sources : List SourceReference := []
  confidence_score : ℚ := 0
  verification_notes : Str := []
deriving DecidableEq, Repr

/-- `Claim.has_source`. -/
def Claim.has_source (c : Claim) : Bool := decide (0 < c.sources.length)

/-- `Claim.best_source`: `max(self.sources, key=…)` keeps the first
maximum. -/
def Claim.best_source (c : Claim) : Option SourceReference :=
  match c.sources with
  | [] => Option.none
  | s :: rest =>
    some (rest.foldl (fun acc x => if acc.alignment_score < x.alignment_score then x else acc) s)

/-- `Intervention`. -/
structure Intervention where
  claim_id : Str
  intervention_type : InterventionType
  confidence : ℚ
  recommendation : Str
  corrected_text : Option Str := Option.none
  explanation : Option Str := Option.none
deriving DecidableEq, Repr

/-- One entry of `VerificationReport.detailed_claims`
(`{"id", "text", "confidence", "has_source"}`). -/
structure DetailedClaim where
  id : Str
  text : Str
  confidence : ℚ
  has_source : Bool
deriving DecidableEq, Repr

/-- `VerificationReport` (its `generation_timestamp` is wall-clock time
and is not modelled). -/
structure VerificationReport where
  overall_confidence : ℚ
  verified_claims_count : Nat
  total_claims_count : Nat
  hallucination_score : ℚ
  verification_summary : Str
  detailed_claims : List DetailedClaim
deriving DecidableEq, Repr

/-- `DocumentStore`: an in-memory list of chunks (`self._chunks`). -/
structure DocumentStore where
  chunks : List DocumentChunk := []
deriving DecidableEq, Repr

/-- `DocumentStore.get_chunk`: first chunk with the given id. -/
def DocumentStore.get_chunk (st : DocumentStore) (chunk_id : Str) : Option DocumentChunk :=
  st.chunks.find? (fun c => c.id = chunk_id)

/-- `DocumentStore.search(query, limit)` (`limit` defaults to 5 in
Python; the only core call site passes `limit=10`): a placeholder that
ignores the query and returns the first `limit` chunks. -/
def DocumentStore.search (st : DocumentStore) (_query : Str) (limit : Nat) : List DocumentChunk :=
  st.chunks.take limit

/-- `DocumentStore.get_all_chunks`. -/
def DocumentStore.get_all_chunks (st : DocumentStore) : List DocumentChunk := st.chunks

/-- `DocumentStore.count`. -/
def DocumentStore.count (st : DocumentStore) : Nat := st.chunks.length

/-- The processing metadata assembled by `verify`
(`{"query": query, **(metadata or {})}`). -/
structure ResultMetadata where
  query : Option Str := Option.none
  extra : List (Str × Str) := []
deriving DecidableEq, Repr

/-- `VerificationResult`. -/
structure VerificationResult where
  original_response : Str
  claims : List Claim
  interventions : List Intervention
  metadata : ResultMetadata := {}
  report : Option VerificationReport := Option.none
deriving DecidableEq, Repr

/-- `VerificationResult.confidence_score`: mean of the claims' confidence
scores, `0.0` for an empty claim list. -/
def VerificationResult.confidence_score (r : VerificationResult) : ℚ :=
  if r.claims.isEmpty then 0
  else (r.claims.map Claim.confidence_score).sum / r.claims.length

/-- `VerificationResult.hallucination_score`: fraction of claims whose
confidence is strictly below the fixed threshold `0.5`, `0.0` for an empty
claim list. -/
def VerificationResult.hallucination_score (r : VerificationResult) : ℚ :=
  if r.claims.isEmpty then 0
  else
    let hallucination_threshold : ℚ := 0.5
    ((r.claims.filter (fun c => c.confidence_score < hallucination_threshold)).length : ℚ) /
      r.claims.length

/-- `VerificationResult.requires_intervention`. -/
def VerificationResult.requires_intervention (r : VerificationResult) : Bool :=
  r.interventions.any (fun i => i.intervention_type ≠ InterventionType.none)

/-- `VerificationResult.get_claim_by_id`. -/
def VerificationResult.get_claim_by_id (r : VerificationResult) (claim_id : Str) : Option Claim :=
  r.claims.find? (fun c => c.id = claim_id)

/-! ### Configuration objects

Each component reads its options from a `config` dictionary with
`dict.get` defaults; the documented defaults are baked into the structure
defaults below. -/

/-- `ClaimExtractor` configuration. -/
structure ExtractorConfig where
  min_claim_length : Nat := 5
  max_claim_length : Nat := 200
  use_spacy : Bool := true
  use_sentence_boundaries : Bool := true
  enable_entity_extraction : Bool := true
deriving DecidableEq, Repr

/-- `ClaimMerger` configuration. -/
structure MergerConfig where
  max_distance : Nat := 20
  merge_same_type : Bool := true
deriving DecidableEq, Repr

/-- `SourceMapper` configuration. -/
structure MapperConfig where
  min_alignment_score : ℚ := 0.6
  max_sources_per_claim : Nat := 3
  use_semantic_search : Bool := true
  enable_entity_matching : Bool := true
deriving DecidableEq, Repr

/-- The default `claim_type_weights` dictionary of the `ConfidenceScorer`
(every claim type is a key, so the `dict.get(key, 1.0)` fallback never
fires under the default configuration). -/
def defaultClaimTypeWeights : ClaimType → ℚ
  | .numerical => 1.2
  | .temporal => 1.1
  | .entity => 1.0
  | .causal => 0.9
  | .comparative => 1.0
  | .definitional => 1.1
  | .citation => 1.2
  | .other => 0.8

/-- `ConfidenceScorer` configuration.  The weights dictionary is modelled
as a total function on claim types (lookup key `claim.type.value`). -/
structure ScorerConfig where
  unsupported_claim_score : ℚ := 0
  claim_type_weights : ClaimType → ℚ := defaultClaimTypeWeights

/-- `InterventionSelector` configuration. -/
structure SelectorConfig where
  hallucination_threshold : ℚ := 0.3
  uncertain_threshold : ℚ := 0.7
  intervention_aggressiveness : ℚ := 0.5
deriving DecidableEq, Repr

/-! ### Claim extraction (`claim_extraction/extractor.py`) -/

/-- The imperative first words rejected by the rule-based factual check. -/
def imperativeStarters : List Str :=
  ["go".data, "do".data, "make".data, "try".data, "use".data,
   "find".data, "get".data, "see".data, "let".data, "take".data]

/-- The `fact_patterns` list (plain substrings searched in
`' ' + text.lower() + ' '`). -/
def factPatterns : List Str :=
  [" is ".data, " are ".data, " was ".data, " were ".data, " has ".data,
   " have ".data, " contains ".data, " includes ".data, " consists ".data,
   " comprises ".data, " equals ".data, " means ".data, " involves ".data,
   " occurs ".data, " happens ".data]

/-- `ClaimExtractor._is_factual_claim_text`. -/
def is_factual_claim_text (text : Str) : Bool :=
  if text.getLast? = some '?' then false
  else if imperativeStarters.contains (pyLower (firstWord text)) then false
  else if ["i ".data, "we ".data, "my ".data, "our ".data].any
      (fun p => p.isPrefixOf (pyLower text)) then false
  else if factPatterns.any
      (fun p => pyContains (' ' :: (pyLower text ++ [' '])) p) then true
  else hasDigit text || hasDatePattern text || hasProperNoun text

/-- The number-word alternatives of the numerical gate. -/
def numberWords : List Str :=
  ["zero".data, "one".data, "two".data, "three".data, "four".data,
   "five".data, "six".data, "seven".data, "eight".data, "nine".data,
   "ten".data]

/-- `ClaimExtractor._determine_claim_type_text`.  In the source the
numerical branch falls through to the later checks when the text contains
a number but none of the money / percentage / quantity sub-patterns
match. -/
def determine_claim_type_text (text : Str) : ClaimType :=
  let text_lower := pyLower text
  if (reSearch numBareAt text || reSearch (wordAltsAt numberWords) text_lower) &&
      (reSearch moneySimpleAt text_lower || reSearch percentAt text_lower ||
        reSearch quantityAt text_lower) then
    ClaimType.numerical
  else if reSearch dateWordYearAt text_lower ||
      reSearch (fun p s => (dateSlashLenAt p s).isSome) text_lower ||
      reSearch (fun p s => (monthLenAt p s).isSome) text_lower ||
      reSearch dayNumAt text_lower ||
      reSearch (wordAltsAt ["yesterday".data, "today".data, "tomorrow".data]) text_lower ||
      reSearch (wordAltsAt
        ["year".data, "month".data, "week".data, "day".data, "hour".data,
         "minute".data, "century".data, "decade".data]) text_lower then
    ClaimType.temporal
  else if reSearch entityPatternAt text then
    ClaimType.entity
  else if ["because".data, "due to".data, "as a result".data, "therefore".data,
      "thus".data, "consequently".data, "leads to".data, "causes".data].any
      (fun m => pyContains text_lower m) then
    ClaimType.causal
  else if ["more".data, "less".data, "greater".data, "fewer".data, "better".data,
      "worse".data, "higher".data, "lower".data, "compared to".data].any
      (fun m => pyContains text_lower m) then
    ClaimType.comparative
  else if reSearch defPatternAt text then
    ClaimType.definitional
  else if ["according to".data, "cited by".data, "as stated in".data,
      "as reported by".data, "as shown by".data].any
      (fun m => pyContains text_lower m) then
    ClaimType.citation
  else ClaimType.other

/-- `ClaimExtractor._extract_entities_rule_based`: proper-noun chains,
then dates (both date patterns in order), then monetary values. -/
def extract_entities_rule_based (text : Str) : List Entity :=
  ((reFinditer properChainLenAt text).map (fun p =>
    { text := pyStrip (pySlice text p.1 (p.1 + p.2)), label := "ENTITY".data,
      start := p.1, stop := p.1 + p.2 })) ++
  ((reFinditer dateSlashLenAt text).map (fun p =>
    { text := pySlice text p.1 (p.1 + p.2), label := "DATE".data,
      start := p.1, stop := p.1 + p.2 })) ++
  ((reFinditer monthDateLenAt text).map (fun p =>
    { text := pySlice text p.1 (p.1 + p.2), label := "DATE".data,
      start := p.1, stop := p.1 + p.2 })) ++
  ((reFinditer moneyFullLenAt text).map (fun p =>
    { text := pySlice text p.1 (p.1 + p.2), label := "MONEY".data,
      start := p.1, stop := p.1 + p.2 }))

/-- The per-sentence body of `ClaimExtractor._extract_claims_rule_based`:
strip, apply the length bounds and the factual filter, then locate the
sentence in the original text — exactly first, case-insensitively as a
fallback — and drop the candidate if neither search finds it. -/
def rule_based_claim_of_sentence (cfg : ExtractorConfig) (text sentence : Str) :
    Option Claim :=
  let clean := pyStrip sentence
  if clean.length < cfg.min_claim_length || cfg.max_claim_length < clean.length then
    Option.none
  else if !is_factual_claim_text clean then Option.none
  else
    let mk : Nat → Claim := fun i =>
      { id := [], text := clean, type := determine_claim_type_text clean,
        start_idx := i, end_idx := i + clean.length,
        entities :=
          if cfg.enable_entity_extraction then extract_entities_rule_based clean else [] }
    match strFind text clean with
    | some i => some (mk i)
    | Option.none =>
      match strFind (pyLower text) (pyLower clean) with
      | some i => some (mk i)
      | Option.none => Option.none

/-- `ClaimExtractor._extract_claims_rule_based`. -/
def extract_claims_rule_based (cfg : ExtractorConfig) (text : Str) : List Claim :=
  (reSplitSentences text).filterMap (rule_based_claim_of_sentence cfg text)

/-- A sentence-like span produced by the spaCy NLP backend.  spaCy is a
third-party library outside this repository, so the attribute computations
that `_extract_claims_spacy` performs on its tokens — the factual-claim
test `_is_factual_claim` (POS tags), the classifier
`_determine_claim_type` (entity labels, `like_num`, …) and the entity
extraction `_extract_entities` (with offsets already re-based to the
span) — are modelled as fields of the span.  The backend's positional
contract (`span.text == text[span.start_char:span.end_char]`) becomes a
hypothesis of the theorems that use this model. -/
structure NlpSpan where
  text : Str
  start_char : Nat
  end_char : Nat
  is_factual : Bool
  claim_type : ClaimType
  entities : List Entity := []
deriving DecidableEq, Repr

/-- A spaCy document: the sentence spans (`doc.sents`) and the sliding
token-window spans (`doc[i:i+20]` steps of 10) used when sentence
boundaries are disabled. -/
structure NlpDoc where
  sents : List NlpSpan := []
  windowSpans : List NlpSpan := []
deriving DecidableEq, Repr

/-- `ClaimExtractor._extract_claims_spacy` over the abstract backend
document. -/
def extract_claims_spacy (cfg : ExtractorConfig) (doc : NlpDoc) : List Claim :=
  let potential_claims := if cfg.use_sentence_boundaries then doc.sents else doc.windowSpans
  potential_claims.filterMap (fun span =>
    if span.text.length < cfg.min_claim_length || cfg.max_claim_length < span.text.length then
      Option.none
    else if !span.is_factual then Option.none
    else
      some
        { id := [], text := pyStrip span.text, type := span.claim_type,
          start_idx := span.start_char, end_idx := span.end_char,
          entities := if cfg.enable_entity_extraction then span.entities else [] })

/-- `ClaimExtractor`: configuration plus the optional NLP backend
(`self.nlp`, `None` when spaCy is unavailable and the extractor fell back
to rules). -/
structure ClaimExtractor where
  config : ExtractorConfig := {}
  nlp : Option (Str → NlpDoc) := Option.none

/-- `ClaimExtractor.extract_claims`: dispatch between the spaCy strategy
and the rule-based fallback (`if self.use_spacy and self.nlp is not
None`). -/
def ClaimExtractor.extract_claims (e : ClaimExtractor) (text : Str) : List Claim :=
  match e.nlp with
  | some f => if e.config.use_spacy then extract_claims_spacy e.config (f text)
              else extract_claims_rule_based e.config text
  | Option.none => extract_claims_rule_based e.config text

/-! ### Claim merging (`ClaimMerger`) -/

/-- The `type_priority` dictionary of `_merge_claim_group` (every claim
type is a key, so the `.get(…, 0)` fallback never fires). -/
def claimTypePriority : ClaimType → Nat
  | .numerical => 5
  | .temporal => 4
  | .entity => 3
  | .causal => 2
  | .comparative => 2
  | .definitional => 2
  | .citation => 1
  | .other => 0

/-- The grouping test of `merge_claims`:
`current.start_idx - prev.end_idx <= max_distance and (not merge_same_type
or current.type == prev.type)`.  The Python subtraction is over ℤ; since
positions and the threshold are non-negative it is written equivalently as
`current.start_idx ≤ prev.end_idx + max_distance`. -/
def mergeableAfter (cfg : MergerConfig) (prev cur : Claim) : Bool :=
  cur.start_idx ≤ prev.end_idx + cfg.max_distance &&
    (!cfg.merge_same_type || decide (cur.type = prev.type))

/-- An unreachable placeholder (Python's `min`/`max` raise on an empty
sequence; `_merge_claim_group` is only called on groups of size ≥ 2). -/
def emptyGroupClaim : Claim :=
  { id := [], text := [], type := ClaimType.other, start_idx := 0, end_idx := 0 }

/-- `(text, label)`-deduplication of the combined entity list, keeping
first occurrences (the `seen_entity_texts` set). -/
def dedupEntities (l : List Entity) : List Entity :=
  l.foldl
    (fun acc e =>
      if acc.any (fun e2 => e2.text = e.text && e2.label = e.label) then acc
      else acc ++ [e])
    []

/-- `ClaimMerger._merge_claim_group`. -/
def merge_claim_group (claims : List Claim) : Claim :=
  match claims with
  | [] => emptyGroupClaim
  | c0 :: rest =>
    let start_idx := rest.foldl (fun a c => Nat.min a c.start_idx) c0.start_idx
    let end_idx := rest.foldl (fun a c => Nat.max a c.end_idx) c0.end_idx
    -- Python's min/max with a key keep the first extremal element
    let first_claim := rest.foldl (fun a c => if c.start_idx < a.start_idx then c else a) c0
    let last_claim := rest.foldl (fun a c => if a.end_idx < c.end_idx then c else a) c0
    let full_text :=
      first_claim.text.take (last_claim.start_idx - first_claim.start_idx) ++ last_claim.text
    let claim_type :=
      (rest.foldl
        (fun a c => if claimTypePriority a.type < claimTypePriority c.type then c else a)
        c0).type
    let combined_entities :=
      dedupEntities
        ((claims.map (fun cl =>
          cl.entities.map (fun e =>
            { e with
              start := e.start + (cl.start_idx - start_idx),
              stop := e.stop + (cl.start_idx - start_idx) }))).flatten)
    { id := [], text := full_text, type := claim_type,
      start_idx := start_idx, end_idx := end_idx, entities := combined_entities }

/-- The grouping loop of `merge_claims`: `accRev` holds the current group
(reversed) without its last element `prev`; a claim joins the group when
`mergeableAfter` relates it to the group's last element. -/
def mergeGroupGo (cfg : MergerConfig) : List Claim → Claim → List Claim → List (List Claim)
  | accRev, prev, [] => [(prev :: accRev).reverse]
  | accRev, prev, c :: rest =>
    if mergeableAfter cfg prev c then mergeGroupGo cfg (prev :: accRev) c rest
    else (prev :: accRev).reverse :: mergeGroupGo cfg [] c rest

/-- `sorted(claims, key=lambda c: c.start_idx)`: Python's stable sort by
start offset (insertion sort with a non-strict key comparison is stable). -/
def sort_by_start (claims : List Claim) : List Claim :=
  List.insertionSort (fun a b => a.start_idx ≤ b.start_idx) claims

/-- The per-group step of `merge_claims`: a group of size one passes
through unchanged, larger groups are merged. -/
def merge_group_passthrough (g : List Claim) : Claim :=
  match g with
  | [c] => c
  | g' => merge_claim_group g'

/-- `ClaimMerger.merge_claims`: sort by position (Python's stable sort),
group consecutive mergeable claims, pass singleton groups through
unchanged and merge the rest. -/
def merge_claims (cfg : MergerConfig) (claims : List Claim) : List Claim :=
  if claims.length ≤ 1 then claims
  else
    let sorted_claims := sort_by_start claims
    match sorted_claims with
    | [] => []
    | h :: t => (mergeGroupGo cfg [] h t).map merge_group_passthrough

/-! ### Source mapping (`source_mapping/mapper.py`) -/

/-- `SourceMapper._semantic_search`: placeholder that delegates to the
store's search with `limit=10`. -/
def semantic_search (claim : Claim) (store : DocumentStore) : List DocumentChunk :=
  store.search claim.text 10

/-- `SourceMapper._keyword_search`. -/
def keyword_search (claim : Claim) (store : DocumentStore) : List DocumentChunk :=
  let words := alphaTokens 3 claim.text
  let keywords := (words.filter (fun w => 4 < w.length)).take 5
  let keywords := if keywords.isEmpty then words.take 5 else keywords
  ((store.get_all_chunks).filter (fun chunk =>
    keywords.any (fun k => pyContains (pyLower chunk.text) (pyLower k)))).take 10

/-- `SourceMapper._entity_search`. -/
def entity_search (claim : Claim) (store : DocumentStore) : List DocumentChunk :=
  let entity_texts := claim.entities.map (fun e => pyLower e.text)
  if entity_texts.isEmpty then []
  else
    ((store.get_all_chunks).filter (fun chunk =>
      entity_texts.any (fun t => pyContains (pyLower chunk.text) t))).take 10

/-- `SourceMapper._find_potential_sources`: semantic or keyword search,
plus entity search (deduplicated by chunk id) when enabled and the claim
has entities. -/
def find_potential_sources (cfg : MapperConfig) (claim : Claim) (store : DocumentStore) :
    List DocumentChunk :=
  let potential_sources :=
    if cfg.use_semantic_search then semantic_search claim store
    else keyword_search claim store
  if cfg.enable_entity_matching && !claim.entities.isEmpty then
    (entity_search claim store).foldl
      (fun acc chunk =>
        if (acc.map DocumentChunk.id).contains chunk.id then acc else acc ++ [chunk])
      potential_sources
  else potential_sources

/-- `SourceMapper._score_generic_claim`: Jaccard similarity of the ≥3-letter
token sets, plus an entity-match bonus, capped at 1. -/
def score_generic_claim (cfg : MapperConfig) (claim : Claim) (chunk : DocumentChunk) : ℚ :=
  let claim_words := alphaTokens 3 (pyLower claim.text)
  let chunk_words := alphaTokens 3 (pyLower chunk.text)
  if pySetCard claim_words = 0 then 0
  else
    let inter := pySetInterCard claim_words chunk_words
    let union := pySetUnionCard claim_words chunk_words
    if union = 0 then 0
    else
      let jaccard : ℚ := (inter : ℚ) / (union : ℚ)
      let entity_boost : ℚ :=
        if !claim.entities.isEmpty && cfg.enable_entity_matching then
          let entity_texts := claim.entities.map (fun e => pyLower e.text)
          let matched_entities :=
            (entity_texts.filter (fun t => pyContains (pyLower chunk.text) t)).length
          if 0 < matched_entities then
            0.2 * min 1 ((matched_entities : ℚ) / (entity_texts.length : ℚ))
          else 0
        else 0
      min 1 (jaccard + entity_boost)

/-- `SourceMapper._score_numerical_claim`.  Note that
`re.findall(r'\d+(\.\d+)?', …)` returns the captures of the fractional
group, not the matched numbers (see `reFindallNumberGroups`). -/
def score_numerical_claim (cfg : MapperConfig) (claim : Claim) (chunk : DocumentChunk) : ℚ :=
  let claim_numbers := reFindallNumberGroups claim.text
  let chunk_numbers := reFindallNumberGroups chunk.text
  if !claim_numbers.isEmpty && chunk_numbers.isEmpty then 0
  else
    let sharedCard := pySetInterCard claim_numbers chunk_numbers
    if 0 < sharedCard then min 1 ((sharedCard : ℚ) / (claim_numbers.length : ℚ))
    else score_generic_claim cfg claim chunk * 0.8

/-- `SourceMapper._score_temporal_claim`.  The date pattern
`\b(19|20)\d{2}\b|\b\d{1,2}/\d{1,2}/\d{2,4}\b` has one capturing group, so
its `findall` returns `"19"`/`"20"`/`""` captures (see
`reFindallDateGroups`). -/
def score_temporal_claim (cfg : MapperConfig) (claim : Claim) (chunk : DocumentChunk) : ℚ :=
  let claim_dates := reFindallDateGroups claim.text
  let chunk_dates := reFindallDateGroups chunk.text
  let claim_months := reFindallMonths claim.text
  let chunk_months := reFindallMonths chunk.text
  if (!claim_dates.isEmpty || !claim_months.isEmpty) &&
      !(!chunk_dates.isEmpty || !chunk_months.isEmpty) then 0
  else
    let shared_dates := pySetInterCard claim_dates chunk_dates
    let shared_months := pySetInterCard (claim_months.map pyLower) (chunk_months.map pyLower)
    if 0 < shared_dates || 0 < shared_months then
      let shared_count := shared_dates + shared_months
      let total_count := claim_dates.length + claim_months.length
      min 1 ((shared_count : ℚ) / (total_count : ℚ))
    else score_generic_claim cfg claim chunk * 0.8

/-- `SourceMapper._calculate_alignment_score`: type dispatch. -/
def calculate_alignment_score (cfg : MapperConfig) (claim : Claim) (chunk : DocumentChunk) : ℚ :=
  if claim.type = ClaimType.numerical then score_numerical_claim cfg claim chunk
  else if claim.type = ClaimType.temporal then score_temporal_claim cfg claim chunk
  else score_generic_claim cfg claim chunk

/-- `SourceMapper._extract_relevant_excerpt`. -/
def extract_relevant_excerpt (claim : Claim) (chunk : DocumentChunk) : Str :=
  if chunk.text.length ≤ 200 then chunk.text
  else
    let important_words := alphaTokens 4 (pyLower claim.text)
    let best :=
      (reSplitSentences chunk.text).foldl
        (fun (acc : Str × ℚ) sentence =>
          if sentence.length < 10 then acc
          else
            let overlapCard := pySetInterCard (alphaTokens 4 (pyLower sentence)) important_words
            let score : ℚ := (overlapCard : ℚ) / (max 1 (pySetCard important_words) : ℚ)
            if acc.2 < score then (sentence, score) else acc)
        ([], 0)
    if best.1.isEmpty then pySliceTo chunk.text 200 ++ "...".data
    else pyStrip best.1

/-- `SourceMapper._score_sources`: a `SourceReference` for every potential
chunk whose alignment score is strictly positive. -/
def score_sources (cfg : MapperConfig) (claim : Claim) (chunks : List DocumentChunk) :
    List SourceReference :=
  chunks.filterMap (fun chunk =>
    let alignment_score := calculate_alignment_score cfg claim chunk
    if 0 < alignment_score then
      some
        { chunk_id := chunk.id, document_id := chunk.source_document,
          text_excerpt := extract_relevant_excerpt claim chunk,
          alignment_score := alignment_score,
          context :=
            { boundary_type := chunk.boundary_type.map BoundaryType.value,
              parent_section := chunk.parent_section } }
    else Option.none)

/-- The scored candidates of one claim that survive the minimum-alignment
filter (`alignment_score >= min_alignment_score`), still in retrieval
order. -/
def valid_sources (cfg : MapperConfig) (claim : Claim) (store : DocumentStore) :
    List SourceReference :=
  (score_sources cfg claim (find_potential_sources cfg claim store)).filter
    (fun s => cfg.min_alignment_score ≤ s.alignment_score)

/-- The per-claim body of `SourceMapper.map_to_sources`: filter by the
minimum alignment score, sort descending (Python's stable `list.sort` with
`reverse=True`), keep at most `max_sources_per_claim`, and set the
verification notes. -/
def map_claim (cfg : MapperConfig) (store : DocumentStore) (claim : Claim) : Claim :=
  let sorted :=
    List.insertionSort
      (fun a b : SourceReference => b.alignment_score ≤ a.alignment_score)
      (valid_sources cfg claim store)
  let srcs := sorted.take cfg.max_sources_per_claim
  { claim with
    sources := srcs,
    verification_notes :=
      if !srcs.isEmpty then
        "Found ".data ++ natToStr srcs.length ++ " supporting sources".data
      else "No supporting sources found".data }

/-- `SourceMapper.map_to_sources` (the Python function mutates each claim
in place and returns the same list). -/
def map_to_sources (cfg : MapperConfig) (claims : List Claim) (store : DocumentStore) :
    List Claim :=
  claims.map (map_claim cfg store)

/-! ### Confidence scoring (`confidence/scorer.py`) -/

/-- `ConfidenceScorer._calculate_base_confidence`. -/
def calculate_base_confidence (claim : Claim) : ℚ :=
  match claim.sources.map SourceReference.alignment_score with
  | [] => 0
  | a :: rest =>
    let scores := a :: rest
    let best_score := rest.foldl max a
    let avg_score := scores.sum / (scores.length : ℚ)
    let base_confidence := 0.7 * best_score + 0.3 * avg_score
    if 1 < scores.length ∧ (1 : ℚ) / 2 < rest.foldl min a then
      min 1 (base_confidence + min 0.2 (0.05 * (scores.length : ℚ)))
    else base_confidence

/-- `ConfidenceScorer._apply_claim_type_weighting`. -/
def apply_claim_type_weighting (cfg : ScorerConfig) (claim : Claim) (base_confidence : ℚ) : ℚ :=
  let weight := cfg.claim_type_weights claim.type
  let weighted_confidence :=
    if weight < 1 then base_confidence * weight
    else base_confidence + (weight - 1) * base_confidence * (1 - base_confidence)
  max 0 (min 1 weighted_confidence)

/-- `ConfidenceScorer._apply_confidence_adjustments`.  The borderline
penalty tests the *weighted* confidence, as the source does. -/
def apply_confidence_adjustments (claim : Claim) (weighted_confidence : ℚ) : ℚ :=
  let adjusted := weighted_confidence
  let adjusted := if 100 < claim.text.length then adjusted * 0.95 else adjusted
  let adjusted :=
    if !claim.entities.isEmpty then
      let entity_texts := claim.entities.map (fun e => pyLower e.text)
      let total_sources := claim.sources.length
      if 0 < total_sources then
        let entity_matches :=
          (claim.sources.filter (fun s =>
            entity_texts.any (fun t => pyContains (pyLower s.text_excerpt) t))).length
        if 0 < entity_matches then
          min 1 (adjusted + 0.1 * ((entity_matches : ℚ) / (total_sources : ℚ)))
        else adjusted
      else adjusted
    else adjusted
  if (1 : ℚ) / 2 < weighted_confidence ∧ weighted_confidence < 0.7 then adjusted - 0.05
  else adjusted

/-- `ConfidenceScorer._calculate_claim_confidence`: the unsupported score
for claims with no sources (returned without clamping), otherwise the
base/weighting/adjustment pipeline clamped to `[0, 1]`. -/
def calculate_claim_confidence (cfg : ScorerConfig) (claim : Claim) : ℚ :=
  if claim.sources.isEmpty then cfg.unsupported_claim_score
  else
    let base_confidence := calculate_base_confidence claim
    let weighted_confidence := apply_claim_type_weighting cfg claim base_confidence
    let adjusted_confidence := apply_confidence_adjustments claim weighted_confidence
    max 0 (min 1 adjusted_confidence)

/-- `ConfidenceScorer.score_claims`. -/
def score_claims (cfg : ScorerConfig) (claims : List Claim) : List Claim :=
  claims.map (fun c => { c with confidence_score := calculate_claim_confidence cfg c })

/-! ### Intervention selection (`handlers/strategies.py`) -/

/-- `InterventionSelector._determine_low_confidence_intervention`. -/
def determine_low_confidence_intervention (cfg : SelectorConfig) (claim : Claim) :
    InterventionType :=
  if !claim.sources.isEmpty && (1 : ℚ) / 10 < claim.confidence_score then
    InterventionType.uncertainty
  else if 0.7 < cfg.intervention_aggressiveness then InterventionType.removal
  else if claim.has_source then InterventionType.correction
  else InterventionType.removal

/-- `InterventionSelector._generate_recommendation`. -/
def generate_recommendation (claim : Claim) (itype : InterventionType) : Str :=
  match itype with
  | .none => "No intervention needed - claim is well-supported".data
  | .correction =>
    match claim.best_source with
    | some bs =>
      "Replace with corrected information from source: ".data ++ bs.chunk_id
    | Option.none =>
      "Replace with corrected information or remove (no source available)".data
  | .uncertainty =>
    "Add uncertainty qualification to indicate limited source support".data
  | .removal => "Remove this claim as it lacks sufficient source support".data
  | .source_request => "Request additional sources to verify this claim".data
  | .clarification => "Seek clarification on this claim before proceeding".data

/-- `InterventionSelector._calculate_intervention_confidence`. -/
def calculate_intervention_confidence (claim : Claim) (itype : InterventionType) : ℚ :=
  match itype with
  | .none => min 1 (claim.confidence_score + 0.1)
  | .correction =>
    match claim.best_source with
    | some bs => if 0.7 < bs.alignment_score then 0.9 else 0.6
    | Option.none => 0.6
  | .uncertainty =>
    if 0.2 < claim.confidence_score ∧ claim.confidence_score < 0.6 then 0.9 else 0.7
  | .removal => if claim.confidence_score < 0.1 then 0.9 else 0.7
  | _ => 0.7

/-- `InterventionSelector._generate_corrected_text`. -/
def generate_corrected_text (claim : Claim) (itype : InterventionType) : Option Str :=
  if itype ≠ InterventionType.correction then Option.none
  else
    match claim.best_source with
    | some bs => some bs.text_excerpt
    | Option.none => Option.none

/-- `InterventionSelector._generate_explanation` (float formatting `:.2f`
is modelled by `fmt2`). -/
def generate_explanation (claim : Claim) (itype : InterventionType) : Option Str :=
  match itype with
  | .none => Option.none
  | .correction =>
    match claim.best_source with
    | some source =>
      some ("Claim has low confidence score (".data ++ fmt2 claim.confidence_score ++
        ") but a relevant source was found. Source excerpt: '".data ++
        source.text_excerpt ++ "' has alignment score ".data ++
        fmt2 source.alignment_score)
    | Option.none =>
      some ("Claim has low confidence score (".data ++ fmt2 claim.confidence_score ++
        ") and no supporting sources were found.".data)
  | .uncertainty =>
    some ("Claim has borderline confidence score (".data ++ fmt2 claim.confidence_score ++
      "). Has ".data ++ natToStr claim.sources.length ++
      " partial sources, but support is limited.".data)
  | .removal =>
    some ("Claim has very low confidence score (".data ++ fmt2 claim.confidence_score ++
      ") and insufficient source support (".data ++ natToStr claim.sources.length ++
      " sources).".data)
  | .source_request =>
    some ("Claim requires additional sources to verify. Current confidence: ".data ++
      fmt2 claim.confidence_score)
  | .clarification =>
    some ("Claim is ambiguous and may benefit from clarification. Confidence: ".data ++
      fmt2 claim.confidence_score)

/-- `InterventionSelector._select_claim_intervention`. -/
def select_claim_intervention (cfg : SelectorConfig) (claim : Claim) : Intervention :=
  let confidence := claim.confidence_score
  let intervention_type :=
    if confidence < cfg.hallucination_threshold then
      determine_low_confidence_intervention cfg claim
    else if confidence < cfg.uncertain_threshold then InterventionType.uncertainty
    else InterventionType.none
  { claim_id := claim.id,
    intervention_type := intervention_type,
    confidence := calculate_intervention_confidence claim intervention_type,
    recommendation := generate_recommendation claim intervention_type,
    corrected_text :=
      if intervention_type = InterventionType.correction then
        generate_corrected_text claim intervention_type
      else Option.none,
    explanation :=
      if intervention_type ≠ InterventionType.none then
        generate_explanation claim intervention_type
      else Option.none }

/-- `InterventionSelector.select_interventions`: keep only the non-`NONE`
interventions. -/
def select_interventions (cfg : SelectorConfig) (claims : List Claim) : List Intervention :=
  claims.filterMap (fun claim =>
    let i := select_claim_intervention cfg claim
    if i.intervention_type ≠ InterventionType.none then some i else Option.none)

/-! ### The pipeline orchestrator (`processor.py`) -/

/-- `VerificationProcessor`: the default components (the mapper, scorer
and selector are pure up to their configurations, so they are carried as
configurations). -/
structure VerificationProcessor where
  claim_extractor : ClaimExtractor := {}
  source_mapper : MapperConfig := {}
  confidence_scorer : ScorerConfig := {}
  intervention_selector : SelectorConfig := {}

/-- `VerificationProcessor.verify`: extract → map → score → select
interventions → assemble the result.  Under the default processor
configuration `auto_generate_report` is false, so the report step leaves
`report := none`. -/
def VerificationProcessor.verify (p : VerificationProcessor) (llm_response : Str)
    (document_store : DocumentStore) (query : Option Str := Option.none)
    (metadata : List (Str × Str) := []) : VerificationResult :=
  let processing_metadata : ResultMetadata := { query := query, extra := metadata }
  let claims := p.claim_extractor.extract_claims llm_response
  let mapped_claims := map_to_sources p.source_mapper claims document_store
  let scored_claims := score_claims p.confidence_scorer mapped_claims
  let interventions := select_interventions p.intervention_selector scored_claims
  { original_response := llm_response,
    claims := scored_claims,
    interventions := interventions,
    metadata := processing_metadata }

/-! ### Response correction primitives (`handlers/corrections.py`) -/

/-- `re.match(r'^([A-Z][a-z]+ )(is|are|was|were) ', s)`: the two groups
and the rest of the string after the match. -/
def matchSubjVerb (s : Str) : Option (Str × Str × Str) :=
  match s with
  | [] => Option.none
  | c :: rest =>
    if c.isUpper then
      let lows := rest.takeWhile Char.isLower
      if 1 ≤ lows.length then
        match rest.drop lows.length with
        | ' ' :: r2 =>
          ["is".data, "are".data, "was".data, "were".data].foldl
            (fun acc v =>
              acc.orElse fun _ =>
                match tryLit (v ++ [' ']) r2 with
                | some r3 => some (c :: lows ++ [' '], v, r3)
                | Option.none => Option.none)
            Option.none
        | _ => Option.none
      else Option.none
    else Option.none

/-- `re.match(r'^(The [a-z]+ )(is|are|was|were) ', s)`. -/
def matchTheVerb (s : Str) : Option (Str × Str × Str) :=
  match tryLit "The ".data s with
  | some r =>
    let lows := r.takeWhile Char.isLower
    if 1 ≤ lows.length then
      match r.drop lows.length with
      | ' ' :: r2 =>
        ["is".data, "are".data, "was".data, "were".data].foldl
          (fun acc v =>
            acc.orElse fun _ =>
              match tryLit (v ++ [' ']) r2 with
              | some r3 => some ("The ".data ++ lows ++ [' '], v, r3)
              | Option.none => Option.none)
          Option.none
      | _ => Option.none
    else Option.none
  | Option.none => Option.none

/-- The conservative and stronger qualifier lists of
`_add_uncertainty_qualifier`. -/
def uncertaintyQualifiers (conservative : Bool) : List Str :=
  if conservative then
    ["may".data, "might".data, "could".data, "reportedly".data,
     "according to sources".data, "seems to".data, "appears to".data]
  else
    ["uncertain if".data, "limited evidence suggests".data,
     "not clearly supported".data, "sources partially indicate".data,
     "questionable whether".data, "unverified claim that".data,
     "limited support for the claim that".data]

/-- `_add_uncertainty_qualifier(text, claim, conservative)`.  Python picks
the qualifier with `hash(claim.text) % len(qualifiers)`; the built-in
string hash is process-dependent, so it is passed in as a parameter
`hashFn`.  If the claim's recorded text is found neither near its recorded
span nor anywhere in the text, the text is returned unchanged. -/
def add_uncertainty_qualifier (hashFn : Str → Nat) (text : Str) (claim : Claim)
    (conservative : Bool) : Str :=
  let qualify : Nat → Nat → Str := fun s e =>
    let qualifiers := uncertaintyQualifiers conservative
    let qualifier := qualifiers.getD (hashFn claim.text % qualifiers.length) []
    let claim_text := pySlice text s e
    let starts_with_capital :=
      match claim_text with
      | c :: _ => c.isUpper
      | [] => false
    let qualified_text :=
      match matchSubjVerb claim_text with
      | some g => g.1 ++ qualifier ++ [' '] ++ g.2.1 ++ [' '] ++ g.2.2
      | Option.none =>
        match matchTheVerb claim_text with
        | some g => g.1 ++ qualifier ++ [' '] ++ g.2.1 ++ [' '] ++ g.2.2
        | Option.none =>
          -- both f-string branches read `f"{qualifier} {claim_text}"`
          let qualifier :=
            if starts_with_capital then
              match qualifier with
              | q0 :: qtl => q0.toUpper :: qtl
              | [] => []
            else qualifier
          qualifier ++ [' '] ++ claim_text
    pySliceTo text s ++ qualified_text ++ pySliceFrom text e
  if !pyContains (pySlice text claim.start_idx (claim.end_idx + 10)) claim.text then
    match strFind text claim.text with
    | Option.none => text
    | some p => qualify p (p + claim.text.length)
  else qualify claim.start_idx claim.end_idx

/-- `_apply_correction(text, claim, correction)`.  `none` models the
`IndexError` that `correction[0]` raises on an empty correction (only
reachable when the claim text was located); otherwise the behaviour is
total.  If the claim's recorded text is found neither near its recorded
span nor anywhere in the text, the text is returned unchanged. -/
def apply_correction (text : Str) (claim : Claim) (correction : Str) : Option Str :=
  let replaceAt : Nat → Nat → Option Str := fun s e =>
    let starts_with_capital :=
      match text.drop s with
      | c :: _ => c.isUpper
      | [] => false
    match correction with
    | [] => Option.none
    | c0 :: ctl =>
      let correction :=
        if starts_with_capital && !c0.isUpper then c0.toUpper :: ctl
        else if !starts_with_capital && c0.isUpper then c0.toLower :: ctl
        else c0 :: ctl
      some (pySliceTo text s ++ correction ++ pySliceFrom text e)
  if !pyContains (pySlice text claim.start_idx (claim.end_idx + 10)) claim.text then
    match strFind text claim.text with
    | Option.none => some text
    | some p => replaceAt p (p + claim.text.length)
  else replaceAt claim.start_idx claim.end_idx

/-- `_remove_claim(text, claim)`. -/
def remove_claim (text : Str) (claim : Claim) : Str :=
  let removeAt : Nat → Nat → Str := fun s e =>
    let is_complete_sentence :=
      e < text.length &&
        -- `text[e - 1]`: for `e = 0` Python's `text[-1]` is the last character
        (match (if e = 0 then text.getLast? else (text.drop (e - 1)).head?) with
         | some c => c = '.' || c = '!' || c = '?'
         | Option.none => false)
    if is_complete_sentence then
      let ws := (text.drop e).takeWhile isPySpace
      pySliceTo text s ++ pySliceFrom text (e + ws.length)
    else pySliceTo text s ++ pySliceFrom text e
  if !pyContains (pySlice text claim.start_idx (claim.end_idx + 10)) claim.text then
    match strFind text claim.text with
    | Option.none => text
    | some p => removeAt p (p + claim.text.length)
  else removeAt claim.start_idx claim.end_idx

/-! ### Lemmas about the string model -/

theorem dropWhile_head_false {p : Char → Bool} {l r : Str} {c : Char}
    (h : l.dropWhile p = c :: r) : p c = false := by
  induction l with
  | nil => simp at h
  | cons a l ih =>
    by_cases hp : p a
    · rw [List.dropWhile_cons_of_pos hp] at h
      exact ih h
    · rw [List.dropWhile_cons_of_neg hp] at h
      cases h
      simpa using hp

theorem pyStrip_idem (s : Str) : pyStrip (pyStrip s) = pyStrip s := by
  have key : ∀ l : Str, (∀ c r, l = c :: r → isPySpace c = false) →
      l.dropWhile isPySpace = l := by
    intro l h
    cases l with
    | nil => rfl
    | cons c r => rw [List.dropWhile_cons_of_neg]; simp [h c r rfl]
  unfold pyStrip
  set A := s.dropWhile isPySpace with hA
  set B := A.reverse.dropWhile isPySpace with hB
  have h1 : B.reverse.dropWhile isPySpace = B.reverse := by
    apply key
    intro c r hcr
    have hpre : c :: r <+: A := by
      rw [← hcr, ← List.reverse_reverse A]
      exact List.reverse_prefix.mpr (List.dropWhile_suffix _)
    obtain ⟨t, ht⟩ := hpre
    exact dropWhile_head_false (p := isPySpace) (l := s) (by rw [← hA]; exact ht.symm)
  rw [h1, List.reverse_reverse]
  have h2 : B.dropWhile isPySpace = B := by
    apply key
    intro c r hcr
    exact dropWhile_head_false (p := isPySpace) (l := A.reverse) (by rw [← hB]; exact hcr)
  rw [h2]

theorem pyStrip_is_substring (s : Str) : pyStrip s <:+: s := by
  unfold pyStrip
  have h2 : ((s.dropWhile isPySpace).reverse.dropWhile isPySpace).reverse <+:
      s.dropWhile isPySpace := by
    conv_rhs => rw [← List.reverse_reverse (s.dropWhile isPySpace)]
    exact List.reverse_prefix.mpr (List.dropWhile_suffix _)
  exact h2.isInfix.trans (List.dropWhile_suffix _).isInfix

theorem strFindAux_isSome_of_substring {p : Str} :
    ∀ (t : Str) (i : Nat), p <:+: t → (strFindAux p i t).isSome
  | [], i, h => by
    have : p = [] := List.eq_nil_of_infix_nil h
    simp [strFindAux, this]
  | c :: t, i, h => by
    rw [strFindAux]
    split
    · simp
    · next hpre =>
      rcases List.infix_cons_iff.mp h with hc | ht
      · exact absurd (List.isPrefixOf_iff_prefix.mpr hc) (by simpa using hpre)
      · exact strFindAux_isSome_of_substring t (i + 1) ht

theorem strFindAux_some_spec {p : Str} :
    ∀ (t : Str) (i j : Nat), strFindAux p i t = some j →
      i ≤ j ∧ j ≤ i + t.length ∧ p <+: t.drop (j - i)
  | [], i, j, h => by
    rw [strFindAux] at h
    split at h
    · next hpre =>
      cases h
      exact ⟨Nat.le_refl _, by simp, by simpa using List.isPrefixOf_iff_prefix.mp hpre⟩
    · cases h
  | c :: t, i, j, h => by
    rw [strFindAux] at h
    split at h
    · next hpre =>
      cases h
      exact ⟨Nat.le_refl _, by simp, by simpa using List.isPrefixOf_iff_prefix.mp hpre⟩
    · have ih := strFindAux_some_spec t (i + 1) j h
      refine ⟨by omega, by simp; omega, ?_⟩
      have hd : (c :: t).drop (j - i) = t.drop (j - (i + 1)) := by
        have : j - i = (j - (i + 1)) + 1 := by omega
        rw [this, List.drop_succ_cons]
      rw [hd]
      exact ih.2.2

theorem strFind_some_spec {t p : Str} {i : Nat} (h : strFind t p = some i) :
    p <+: t.drop i ∧ i + p.length ≤ t.length := by
  have := strFindAux_some_spec (p := p) t 0 i h
  refine ⟨by simpa using this.2.2, ?_⟩
  obtain ⟨u, hu⟩ := this.2.2
  have hlen : p.length ≤ (t.drop (i - 0)).length := by
    rw [← hu]; simp
  simp only [Nat.sub_zero] at hlen
  have : i ≤ t.length := by simpa using this.2.1
  simp [List.length_drop] at hlen
  omega

theorem strFind_slice {t p : Str} {i : Nat} (h : strFind t p = some i) :
    pySlice t i (i + p.length) = p := by
  obtain ⟨hpre, _⟩ := strFind_some_spec h
  obtain ⟨u, hu⟩ := hpre
  unfold pySlice
  rw [List.drop_take, Nat.add_sub_cancel_left, ← hu]
  simp

theorem strFind_isSome_of_substring {t p : Str} (h : p <:+: t) : (strFind t p).isSome :=
  strFindAux_isSome_of_substring t 0 h

theorem pyContains_iff_substring {t p : Str} : pyContains t p = true ↔ p <:+: t := by
  constructor
  · intro h
    rw [pyContains, Option.isSome_iff_exists] at h
    obtain ⟨i, hi⟩ := h
    have := (strFind_some_spec hi).1
    exact this.isInfix.trans (List.drop_suffix i t).isInfix
  · intro h
    simpa [pyContains] using strFind_isSome_of_substring h

theorem pySlice_is_substring (t : Str) (a b : Nat) : pySlice t a b <:+: t :=
  (List.drop_suffix a (t.take b)).isInfix.trans (List.take_prefix b t).isInfix

theorem sentSplitGo_pieces_substring :
    ∀ (rest : Str) (recent cur piece : Str), piece ∈ sentSplitGo recent cur rest →
      piece <:+: (cur.reverse ++ rest)
  | [], recent, cur, piece, h => by
    simp only [sentSplitGo, List.mem_singleton] at h
    subst h
    simp
  | c :: rest, recent, cur, piece, h => by
    rw [sentSplitGo] at h
    split at h
    · rcases List.mem_cons.mp h with h1 | h2
      · subst h1
        exact ((cur.reverse).prefix_append (c :: rest)).isInfix
      · have := sentSplitGo_pieces_substring rest (c :: recent) [] piece h2
        simp only [List.reverse_nil, List.nil_append] at this
        exact this.trans ⟨cur.reverse ++ [c], [], by simp⟩
    · have := sentSplitGo_pieces_substring rest (c :: recent) (c :: cur) piece h
      simpa using this

theorem reSplitSentences_pieces_substring {t piece : Str} (h : piece ∈ reSplitSentences t) :
    piece <:+: t := by
  simpa using sentSplitGo_pieces_substring t [] [] piece h

/-! ### C2: positional integrity of extraction -/

theorem rule_based_claim_spec {cfg : ExtractorConfig} {text sentence : Str} {claim : Claim}
    (hsent : sentence ∈ reSplitSentences text)
    (hsome : rule_based_claim_of_sentence cfg text sentence = some claim) :
    claim.text = pyStrip (pySlice text claim.start_idx claim.end_idx) ∧
      claim.start_idx < claim.end_idx ∧ claim.end_idx ≤ text.length := by
  have hinf : pyStrip sentence <:+: text :=
    (pyStrip_is_substring sentence).trans (reSplitSentences_pieces_substring hsent)
  obtain ⟨i, hi⟩ := Option.isSome_iff_exists.mp (strFind_isSome_of_substring hinf)
  simp only [rule_based_claim_of_sentence] at hsome
  rw [hi] at hsome
  split at hsome
  · cases hsome
  · split at hsome
    · cases hsome
    · next hfact =>
      have hfact' : is_factual_claim_text (pyStrip sentence) = true := by
        simpa using hfact
      have hne : pyStrip sentence ≠ [] := by
        intro hnil
        rw [hnil] at hfact'
        exact absurd hfact' (by decide)
      cases hsome
      refine ⟨?_, ?_, ?_⟩
      · simp only
        rw [strFind_slice hi, pyStrip_idem]
      · simp only
        have : 0 < (pyStrip sentence).length := List.length_pos.mpr hne
        omega
      · simpa using (strFind_some_spec hi).2

theorem rule_based_claim_dropped {cfg : ExtractorConfig} {text sentence : Str}
    (h1 : strFind text (pyStrip sentence) = Option.none)
    (h2 : strFind (pyLower text) (pyLower (pyStrip sentence)) = Option.none) :
    rule_based_claim_of_sentence cfg text sentence = Option.none := by
  simp only [rule_based_claim_of_sentence, h1, h2]
  split <;> simp

theorem spacy_claim_spec {cfg : ExtractorConfig} {text : Str} {doc : NlpDoc} {claim : Claim}
    (hspans : ∀ span ∈ (if cfg.use_sentence_boundaries then doc.sents else doc.windowSpans),
      span.text = pySlice text span.start_char span.end_char ∧
        span.start_char < span.end_char ∧ span.end_char ≤ text.length)
    (h : claim ∈ extract_claims_spacy cfg doc) :
    claim.text = pyStrip (pySlice text claim.start_idx claim.end_idx) ∧
      claim.start_idx < claim.end_idx ∧ claim.end_idx ≤ text.length := by
  rw [extract_claims_spacy, List.mem_filterMap] at h
  obtain ⟨span, hmem, hsome⟩ := h
  obtain ⟨htext, hlt, hle⟩ := hspans span hmem
  split at hsome
  · cases hsome
  · split at hsome
    · cases hsome
    · cases hsome
      exact ⟨by simpa using congrArg pyStrip htext, by simpa using hlt, by simpa using hle⟩

/-- C2: for every claim produced by the rule-based extraction strategy,
the claim's text equals the slice of the original text between its
recorded offsets after trimming whitespace, and `start_idx < end_idx ≤
len(text)` (`0 ≤ start_idx` holds by the ℕ encoding); the same holds for
the linguistic (spaCy) strategy under the backend's positional contract;
and a rule-based sentence candidate that the exact substring search and
the case-insensitive retry both fail to locate yields no claim. -/
theorem C2_claim_positions :
    (∀ (cfg : ExtractorConfig) (text : Str) (claim : Claim),
        claim ∈ extract_claims_rule_based cfg text →
        claim.text = pyStrip (pySlice text claim.start_idx claim.end_idx) ∧
          claim.start_idx < claim.end_idx ∧ claim.end_idx ≤ text.length) ∧
    (∀ (cfg : ExtractorConfig) (text : Str) (doc : NlpDoc) (claim : Claim),
        (∀ span ∈ (if cfg.use_sentence_boundaries then doc.sents else doc.windowSpans),
          span.text = pySlice text span.start_char span.end_char ∧
            span.start_char < span.end_char ∧ span.end_char ≤ text.length) →
        claim ∈ extract_claims_spacy cfg doc →
        claim.text = pyStrip (pySlice text claim.start_idx claim.end_idx) ∧
          claim.start_idx < claim.end_idx ∧ claim.end_idx ≤ text.length) ∧
    (∀ (cfg : ExtractorConfig) (text sentence : Str),
        strFind text (pyStrip sentence) = Option.none →
        strFind (pyLower text) (pyLower (pyStrip sentence)) = Option.none →
        rule_based_claim_of_sentence cfg text sentence = Option.none) := by
  refine ⟨?_, ?_, ?_⟩
  · intro cfg text claim h
    rw [extract_claims_rule_based, List.mem_filterMap] at h
    obtain ⟨sentence, hsent, hsome⟩ := h
    exact rule_based_claim_spec hsent hsome
  · intro cfg text doc claim hspans h
    exact spacy_claim_spec hspans h
  · intro cfg text sentence h1 h2
    exact rule_based_claim_dropped h1 h2

/-- Witness for C2 at concrete inputs: a claim actually extracted by the
rule-based strategy, a claim of the spaCy strategy under the backend
contract, and a dropped unlocatable candidate. -/
theorem C2_claim_positions_witness :
    ((Claim.mk [] "this is fine.".data ClaimType.other 0 13 [] [] [] 0 []).text =
        pyStrip (pySlice "this is fine. that is fine.".data
          (Claim.mk [] "this is fine.".data ClaimType.other 0 13 [] [] [] 0 []).start_idx
          (Claim.mk [] "this is fine.".data ClaimType.other 0 13 [] [] [] 0 []).end_idx) ∧
      (Claim.mk [] "this is fine.".data ClaimType.other 0 13 [] [] [] 0 []).start_idx <
        (Claim.mk [] "this is fine.".data ClaimType.other 0 13 [] [] [] 0 []).end_idx ∧
      (Claim.mk [] "this is fine.".data ClaimType.other 0 13 [] [] [] 0 []).end_idx ≤
        "this is fine. that is fine.".data.length) ∧
    ((Claim.mk [] "hi there.".data ClaimType.other 0 9 [] [] [] 0 []).text =
        pyStrip (pySlice "hi there.".data 0 9) ∧
      (0 : Nat) < 9 ∧ 9 ≤ "hi there.".data.length) ∧
    rule_based_claim_of_sentence {} "abc".data "zzz".data = Option.none := by
  refine ⟨?_, ?_, ?_⟩
  · exact C2_claim_positions.1 {} "this is fine. that is fine.".data
      (Claim.mk [] "this is fine.".data ClaimType.other 0 13 [] [] [] 0 []) (by decide)
  · exact C2_claim_positions.2.1 {} "hi there.".data
      { sents := [NlpSpan.mk "hi there.".data 0 9 true ClaimType.other []] }
      (Claim.mk [] "hi there.".data ClaimType.other 0 9 [] [] [] 0 [])
      (by decide) (by decide)
  · exact C2_claim_positions.2.2 {} "abc".data "zzz".data (by decide) (by decide)

/-! ### C10: the semantic-search placeholder -/

/-- C10: the semantic-search retrieval step returns exactly the first
`min(10, store.count)` chunks of the store in insertion order, and is
independent of the claim queried: any two claims receive identical
candidate sets from the same store. -/
theorem C10_semantic_search_ignores_query :
    ∀ (store : DocumentStore) (claim : Claim),
      semantic_search claim store = store.chunks.take 10 ∧
      (semantic_search claim store).length = min 10 store.count ∧
      ∀ claim2 : Claim, semantic_search claim store = semantic_search claim2 store := by
  intro store claim
  refine ⟨rfl, ?_, fun _ => rfl⟩
  simp [semantic_search, DocumentStore.search, DocumentStore.count]

/-! ### C8: the derived result metrics -/

/-- C8: the overall confidence of a result is the arithmetic mean of its
claims' confidence scores and is 0 for an empty claim list; the
hallucination score is the fraction of claims with confidence strictly
below the fixed threshold 0.5, again 0 for an empty list; and both metrics
are pure functions of the claim list, so recomputing them never changes
the result. -/
theorem C8_result_metric_formulas :
    ∀ r : VerificationResult,
      (r.claims = [] → r.confidence_score = 0 ∧ r.hallucination_score = 0) ∧
      (r.claims ≠ [] →
        r.confidence_score * (r.claims.length : ℚ) =
          (r.claims.map Claim.confidence_score).sum ∧
        r.hallucination_score * (r.claims.length : ℚ) =
          ((r.claims.filter (fun c => c.confidence_score < (0.5 : ℚ))).length : ℚ)) ∧
      (∀ r2 : VerificationResult, r.claims = r2.claims →
        r.confidence_score = r2.confidence_score ∧
          r.hallucination_score = r2.hallucination_score) := by
  intro r
  refine ⟨?_, ?_, ?_⟩
  · intro h
    constructor <;>
      simp [VerificationResult.confidence_score, VerificationResult.hallucination_score, h]
  · intro h
    have hne : ((r.claims.length : ℚ)) ≠ 0 := by
      have := List.length_pos.mpr h
      simp only [ne_eq, Nat.cast_eq_zero]
      omega
    constructor
    · rw [VerificationResult.confidence_score, if_neg (by simpa using h)]
      exact div_mul_cancel₀ _ hne
    · rw [VerificationResult.hallucination_score, if_neg (by simpa using h)]
      exact div_mul_cancel₀ _ hne
  · intro r2 h
    constructor <;>
      simp [VerificationResult.confidence_score, VerificationResult.hallucination_score, h]

/-- Witness for C8: an empty result, a one-claim result with confidence
0.3, and recomputation on a metadata-changed copy. -/
theorem C8_result_metric_formulas_witness :
    ((VerificationResult.mk [] [] [] {} Option.none).confidence_score = 0 ∧
      (VerificationResult.mk [] [] [] {} Option.none).hallucination_score = 0) ∧
    ((VerificationResult.mk [] [Claim.mk [] [] ClaimType.other 0 1 [] [] [] 0.3 []] []
        {} Option.none).confidence_score *
        (((VerificationResult.mk [] [Claim.mk [] [] ClaimType.other 0 1 [] [] [] 0.3 []] []
          {} Option.none).claims.length : ℚ)) =
      ((VerificationResult.mk [] [Claim.mk [] [] ClaimType.other 0 1 [] [] [] 0.3 []] []
        {} Option.none).claims.map Claim.confidence_score).sum) ∧
    (VerificationResult.mk "a".data [] [] {} Option.none).confidence_score =
      (VerificationResult.mk "b".data [] [] {} Option.none).confidence_score := by
  refine ⟨(C8_result_metric_formulas _).1 rfl, ?_, ?_⟩
  · exact ((C8_result_metric_formulas _).2.1 (by decide)).1
  · exact ((C8_result_metric_formulas _).2.2 _ rfl).1

/-! ### C4: confidence range and the unsupported score -/

/-- C4: for every claim processed by the confidence scorer with an
unsupported-claim score configured inside `[0, 1]` (the default is 0), the
resulting confidence lies in `[0, 1]`; and a claim with an empty evidence
list receives exactly the configured unsupported score. -/
theorem C4_confidence_in_unit_range :
    ∀ (cfg : ScorerConfig) (claims : List Claim) (c : Claim),
      0 ≤ cfg.unsupported_claim_score →
      cfg.unsupported_claim_score ≤ 1 →
      c ∈ score_claims cfg claims →
      (0 ≤ c.confidence_score ∧ c.confidence_score ≤ 1) ∧
        (c.sources = [] → c.confidence_score = cfg.unsupported_claim_score) := by
  intro cfg claims c h0 h1 hmem
  rw [score_claims, List.mem_map] at hmem
  obtain ⟨c0, _, rfl⟩ := hmem
  simp only
  rw [calculate_claim_confidence]
  split
  · exact ⟨⟨h0, h1⟩, fun _ => rfl⟩
  · next hs =>
    refine ⟨⟨le_max_left _ _, max_le (by norm_num) (min_le_left _ _)⟩, ?_⟩
    intro hempty
    exact absurd (by simp [hempty]) hs

/-- Witness for C4: the default scorer on a claim with no sources. -/
theorem C4_confidence_in_unit_range_witness :
    (0 ≤ (Claim.mk [] "x".data ClaimType.other 0 1 [] [] [] 0 []).confidence_score ∧
      (Claim.mk [] "x".data ClaimType.other 0 1 [] [] [] 0 []).confidence_score ≤ 1) ∧
    ((Claim.mk [] "x".data ClaimType.other 0 1 [] [] [] 0 []).sources = [] →
      (Claim.mk [] "x".data ClaimType.other 0 1 [] [] [] 0 []).confidence_score =
        ({} : ScorerConfig).unsupported_claim_score) := by
  have h := C4_confidence_in_unit_range {} [Claim.mk [] "x".data ClaimType.other 0 1 [] [] [] 0 []]
    (Claim.mk [] "x".data ClaimType.other 0 1 [] [] [] 0 [])
    (by norm_num) (by norm_num)
  exact h (by decide)

/-! ### C5: the numerical-alignment scenario -/

/-- The scenario claim `"Revenue was $378 billion in 2022."`. -/
def c5_claim : Claim :=
  { id := [], text := "Revenue was $378 billion in 2022.".data,
    type := ClaimType.numerical, start_idx := 0, end_idx := 33 }

/-- The scenario fragment with different numbers. -/
def c5_fragment_a : DocumentChunk :=
  { id := "f1".data, text := "In 2021, Apple's revenue was $365.8 billion.".data,
    source_document := "d1".data }

/-- The otherwise identical fragment containing `$378 billion`. -/
def c5_fragment_b : DocumentChunk :=
  { id := "f2".data, text := "In 2021, Apple's revenue was $378 billion.".data,
    source_document := "d1".data }

/-- C5 (evaluating the code at the scenario): because
`re.findall(r'\d+(\.\d+)?', …)` returns the *group* captures, the claim's
"number set" is `{""}` (both `378` and `2022` have no fractional part) and
the fragment's is `{"", ".8"}`, so the shared set is *not* empty, the
shared-number branch fires with ratio `1/2`, and the score against the
fragment that really contains `$378 billion` is the same `1/2` — not
strictly higher, contradicting the documented scenario. -/
theorem C5_numerical_scoring_evaluated :
    score_numerical_claim {} c5_claim c5_fragment_a = 1 / 2 ∧
    score_numerical_claim {} c5_claim c5_fragment_b = 1 / 2 ∧
    ¬(score_numerical_claim {} c5_claim c5_fragment_a <
        score_numerical_claim {} c5_claim c5_fragment_b) ∧
    pySetInterCard (reFindallNumberGroups c5_claim.text)
        (reFindallNumberGroups c5_fragment_a.text) ≠ 0 := by
  have ha : score_numerical_claim {} c5_claim c5_fragment_a = 1 / 2 := by
    simp only [score_numerical_claim]
    rw [if_neg, if_pos]
    · rw [show pySetInterCard (reFindallNumberGroups c5_claim.text)
          (reFindallNumberGroups c5_fragment_a.text) = 1 from by decide]
      rw [show (reFindallNumberGroups c5_claim.text).length = 2 from by decide]
      rw [min_eq_right (by norm_num)]
      norm_num
    · decide
    · decide
  have hb : score_numerical_claim {} c5_claim c5_fragment_b = 1 / 2 := by
    simp only [score_numerical_claim]
    rw [if_neg, if_pos]
    · rw [show pySetInterCard (reFindallNumberGroups c5_claim.text)
          (reFindallNumberGroups c5_fragment_b.text) = 1 from by decide]
      rw [show (reFindallNumberGroups c5_claim.text).length = 2 from by decide]
      rw [min_eq_right (by norm_num)]
      norm_num
    · decide
    · decide
  refine ⟨ha, hb, ?_, by decide⟩
  rw [ha, hb]
  exact lt_irrefl _

/-! ### C9: unlocatable claims leave correction and qualification as no-ops -/

/-- C9: if a claim's recorded text occurs nowhere in the current text (so
in particular not at its recorded span), `_apply_correction` and
`_add_uncertainty_qualifier` return the text unchanged and never raise
(`some` is the non-raising outcome of the correction, whose only possible
exception is an `IndexError` on an empty replacement after a successful
match). -/
theorem C9_unlocatable_claim_noop :
    ∀ (text : Str) (claim : Claim) (correction : Str) (hashFn : Str → Nat)
      (conservative : Bool),
      pyContains text claim.text = false →
      apply_correction text claim correction = some text ∧
      add_uncertainty_qualifier hashFn text claim conservative = text := by
  intro text claim correction hashFn conservative h
  have hslice :
      pyContains (pySlice text claim.start_idx (claim.end_idx + 10)) claim.text = false := by
    by_contra hc
    have hc' : pyContains (pySlice text claim.start_idx (claim.end_idx + 10)) claim.text =
        true := by
      revert hc
      cases pyContains (pySlice text claim.start_idx (claim.end_idx + 10)) claim.text <;> simp
    have hinf := (pyContains_iff_substring.mp hc').trans (pySlice_is_substring text _ _)
    rw [pyContains_iff_substring.mpr hinf] at h
    cases h
  have hfind : strFind text claim.text = Option.none := by
    cases hf : strFind text claim.text with
    | none => rfl
    | some i =>
      have : pyContains text claim.text = true := by simp [pyContains, hf]
      rw [this] at h
      cases h
  constructor
  · rw [apply_correction]
    rw [if_pos (by simp [hslice]), hfind]
  · rw [add_uncertainty_qualifier]
    rw [if_pos (by simp [hslice]), hfind]

/-- Witness for C9: a claim whose text occurs nowhere in the text. -/
theorem C9_unlocatable_claim_noop_witness :
    apply_correction "hello world".data
        (Claim.mk [] "xyz".data ClaimType.other 0 3 [] [] [] 0 []) "fix".data =
      some "hello world".data ∧
    add_uncertainty_qualifier (fun _ => 0) "hello world".data
        (Claim.mk [] "xyz".data ClaimType.other 0 3 [] [] [] 0 []) true =
      "hello world".data :=
  C9_unlocatable_claim_noop "hello world".data
    (Claim.mk [] "xyz".data ClaimType.other 0 3 [] [] [] 0 []) "fix".data
    (fun _ => 0) true (by decide)

/-! ### C1: the pipeline sequence -/

/-- C1 (amended): `verify` sequences Extractor → Mapper → Scorer — the
claim list placed into the result is the scored mapping of the *extracted*
claims, with no merge step in between, and its length equals the number of
extracted claims. -/
theorem C1_pipeline_composition :
    ∀ (p : VerificationProcessor) (text : Str) (store : DocumentStore)
      (query : Option Str) (md : List (Str × Str)),
      (p.verify text store query md).claims =
        score_claims p.confidence_scorer
          (map_to_sources p.source_mapper (p.claim_extractor.extract_claims text) store) ∧
      (p.verify text store query md).original_response = text ∧
      (p.verify text store query md).claims.length =
        (p.claim_extractor.extract_claims text).length := by
  intro p text store query md
  refine ⟨rfl, rfl, ?_⟩
  simp [VerificationProcessor.verify, score_claims, map_to_sources]

/-- Counterexample for C1 as stated: on `"this is fine. that is fine."`
against an empty store, the default pipeline's result keeps both extracted
claims, while the merger would collapse them into one — so the result's
claim list is *not* the scored mapping of the merged claims. -/
theorem C1_counterexample_no_merge :
    ((({ claim_extractor := {} } : VerificationProcessor).verify
        "this is fine. that is fine.".data {} Option.none []).claims) ≠
      score_claims {}
        (map_to_sources {}
          (merge_claims {}
            (({} : ClaimExtractor).extract_claims "this is fine. that is fine.".data))
          {}) := by
  intro h
  have hlen := congrArg List.length h
  rw [show ((({ claim_extractor := {} } : VerificationProcessor).verify
      "this is fine. that is fine.".data {} Option.none []).claims).length = 2 from by
        decide] at hlen
  rw [show (score_claims {}
      (map_to_sources {}
        (merge_claims {}
          (({} : ClaimExtractor).extract_claims "this is fine. that is fine.".data))
        {})).length = 1 from by decide] at hlen
  cases hlen

/-! ### C6: merged-claim text reconstruction -/

/-- `min(claims, key=lambda c: c.start_idx)` over a nonempty group. -/
def group_first_claim (c0 : Claim) (rest : List Claim) : Claim :=
  rest.foldl (fun a c => if c.start_idx < a.start_idx then c else a) c0

/-- `max(claims, key=lambda c: c.end_idx)` over a nonempty group. -/
def group_last_claim (c0 : Claim) (rest : List Claim) : Claim :=
  rest.foldl (fun a c => if a.end_idx < c.end_idx then c else a) c0

theorem group_first_claim_start :
    ∀ (rest : List Claim) (c0 : Claim),
      (group_first_claim c0 rest).start_idx =
        rest.foldl (fun a c => Nat.min a c.start_idx) c0.start_idx
  | [], c0 => rfl
  | c :: rest, c0 => by
    rw [group_first_claim, List.foldl_cons, List.foldl_cons]
    by_cases h : c.start_idx < c0.start_idx
    · have hm : Nat.min c0.start_idx c.start_idx = c.start_idx :=
        Nat.min_eq_right (Nat.le_of_lt h)
      rw [if_pos h, hm]
      exact group_first_claim_start rest c
    · have hm : Nat.min c0.start_idx c.start_idx = c0.start_idx :=
        Nat.min_eq_left (Nat.le_of_not_lt h)
      rw [if_neg h, hm]
      exact group_first_claim_start rest c0

theorem group_last_claim_end :
    ∀ (rest : List Claim) (c0 : Claim),
      (group_last_claim c0 rest).end_idx =
        rest.foldl (fun a c => Nat.max a c.end_idx) c0.end_idx
  | [], c0 => rfl
  | c :: rest, c0 => by
    rw [group_last_claim, List.foldl_cons, List.foldl_cons]
    by_cases h : c0.end_idx < c.end_idx
    · have hm : Nat.max c0.end_idx c.end_idx = c.end_idx :=
        Nat.max_eq_right (Nat.le_of_lt h)
      rw [if_pos h, hm]
      exact group_last_claim_end rest c
    · have hm : Nat.max c0.end_idx c.end_idx = c0.end_idx :=
        Nat.max_eq_left (Nat.le_of_not_lt h)
      rw [if_neg h, hm]
      exact group_last_claim_end rest c0

theorem foldl_min_start_le :
    ∀ (rest : List Claim) (i : Nat),
      rest.foldl (fun a c => Nat.min a c.start_idx) i ≤ i
  | [], _ => Nat.le_refl _
  | c :: rest, i => by
    rw [List.foldl_cons]
    exact Nat.le_trans (foldl_min_start_le rest _) (Nat.min_le_left _ _)

theorem foldl_min_start_le_mem :
    ∀ (rest : List Claim) (i : Nat) (c : Claim), c ∈ rest →
      rest.foldl (fun a c => Nat.min a c.start_idx) i ≤ c.start_idx
  | [], _, _, h => absurd h (List.not_mem_nil _)
  | d :: rest, i, c, h => by
    rw [List.foldl_cons]
    rcases List.mem_cons.mp h with rfl | h2
    · exact Nat.le_trans (foldl_min_start_le rest _) (Nat.min_le_right _ _)
    · exact foldl_min_start_le_mem rest _ c h2

theorem group_member :
    ∀ (rest : List Claim) (c0 : Claim) (f : Claim → Claim → Claim),
      (∀ a c, f a c = a ∨ f a c = c) →
      rest.foldl f c0 ∈ c0 :: rest
  | [], c0, f, _ => List.mem_cons_self _ _
  | c :: rest, c0, f, hf => by
    rw [List.foldl_cons]
    have ih := group_member rest (f c0 c) f hf
    rcases List.mem_cons.mp ih with h | h
    · rw [h]
      rcases hf c0 c with h2 | h2 <;> rw [h2] <;> simp
    · simp [h]

theorem group_first_claim_mem (c0 : Claim) (rest : List Claim) :
    group_first_claim c0 rest ∈ c0 :: rest := by
  apply group_member
  intro a c
  by_cases h : c.start_idx < a.start_idx <;> simp [h]

theorem group_last_claim_mem (c0 : Claim) (rest : List Claim) :
    group_last_claim c0 rest ∈ c0 :: rest := by
  apply group_member
  intro a c
  by_cases h : a.end_idx < c.end_idx <;> simp [h]

/-- The merged claim of a nonempty group, in terms of the first/last
selectors: definitional unfolding of `_merge_claim_group`. -/
theorem merge_claim_group_fields (c0 : Claim) (rest : List Claim) :
    (merge_claim_group (c0 :: rest)).text =
      (group_first_claim c0 rest).text.take
          ((group_last_claim c0 rest).start_idx - (group_first_claim c0 rest).start_idx) ++
        (group_last_claim c0 rest).text ∧
    (merge_claim_group (c0 :: rest)).start_idx =
      rest.foldl (fun a c => Nat.min a c.start_idx) c0.start_idx ∧
    (merge_claim_group (c0 :: rest)).end_idx =
      rest.foldl (fun a c => Nat.max a c.end_idx) c0.end_idx := by
  exact ⟨rfl, rfl, rfl⟩

/-- C6 (amended): the merged claim's text is
`first.text[:last.start_idx - first.start_idx] + last.text`, whose length
is `min(len(first.text), last.start_idx - first.start_idx) +
len(last.text)`; Python's slice does not pad, so no gap filler exists.
The length equals `end_idx - start_idx` exactly when the first and last
claims are adjacent or overlapping (`last.start_idx ≤ first.end_idx`) and
their texts are exact slices of the response
(`len(text) = end_idx - start_idx`); for a non-adjacent group the
reconstruction falls short of the merged span. -/
theorem C6_merged_text_length :
    ∀ (c0 : Claim) (rest : List Claim),
      ((merge_claim_group (c0 :: rest)).text.length =
        min ((group_last_claim c0 rest).start_idx - (group_first_claim c0 rest).start_idx)
            (group_first_claim c0 rest).text.length +
          (group_last_claim c0 rest).text.length) ∧
      ((group_last_claim c0 rest).start_idx ≤ (group_first_claim c0 rest).end_idx →
        (group_first_claim c0 rest).text.length =
          (group_first_claim c0 rest).end_idx - (group_first_claim c0 rest).start_idx →
        (group_last_claim c0 rest).text.length =
          (group_last_claim c0 rest).end_idx - (group_last_claim c0 rest).start_idx →
        (group_first_claim c0 rest).start_idx ≤ (group_first_claim c0 rest).end_idx →
        (group_last_claim c0 rest).start_idx ≤ (group_last_claim c0 rest).end_idx →
        (group_first_claim c0 rest).end_idx ≤ (group_last_claim c0 rest).end_idx →
        (merge_claim_group (c0 :: rest)).text.length =
          (merge_claim_group (c0 :: rest)).end_idx -
            (merge_claim_group (c0 :: rest)).start_idx) := by
  intro c0 rest
  obtain ⟨htext, hstart, hend⟩ := merge_claim_group_fields c0 rest
  constructor
  · rw [htext]
    simp [List.length_take]
  · intro hadj hf hl hfse hlse hfl
    rw [htext, hstart, hend]
    -- the merged start is the first claim's start, the merged end is at
    -- least the last claim's end (it is the max, attained at the last claim)
    have hstart_eq : rest.foldl (fun a c => Nat.min a c.start_idx) c0.start_idx =
        (group_first_claim c0 rest).start_idx := by
      rw [group_first_claim_start]
    have hend_eq : rest.foldl (fun a c => Nat.max a c.end_idx) c0.end_idx =
        (group_last_claim c0 rest).end_idx := by
      rw [group_last_claim_end]
    rw [hstart_eq, hend_eq]
    have hmin_le : (group_first_claim c0 rest).start_idx ≤
        (group_last_claim c0 rest).start_idx := by
      rw [group_first_claim_start]
      rcases List.mem_cons.mp (group_last_claim_mem c0 rest) with h | h
      · rw [h]
        exact foldl_min_start_le rest _
      · exact foldl_min_start_le_mem rest _ _ h
    rw [List.length_append, List.length_take, hf, hl]
    omega

/-- Counterexample for C6 as stated: two same-type claims `"Hello"` at
`[0, 5)` and `"World"` at `[10, 15)`; the merged text is `"HelloWorld"`
(length 10), not a string of length `end_idx - start_idx = 15` — the
slice `first.text[:10]` cannot reach past the first claim's own text, so
no gap filler is produced. -/
theorem C6_counterexample_no_gap_filler :
    (merge_claim_group
        [Claim.mk [] "Hello".data ClaimType.other 0 5 [] [] [] 0 [],
         Claim.mk [] "World".data ClaimType.other 10 15 [] [] [] 0 []]).text.length ≠
      (merge_claim_group
        [Claim.mk [] "Hello".data ClaimType.other 0 5 [] [] [] 0 [],
         Claim.mk [] "World".data ClaimType.other 10 15 [] [] [] 0 []]).end_idx -
        (merge_claim_group
          [Claim.mk [] "Hello".data ClaimType.other 0 5 [] [] [] 0 [],
           Claim.mk [] "World".data ClaimType.other 10 15 [] [] [] 0 []]).start_idx := by
  decide

/-- Witness for C6 at adjacent claims `"Hello"` `[0, 5)` and `"World"`
`[5, 10)`: the reconstruction has the full span length 10. -/
theorem C6_merged_text_length_witness :
    (merge_claim_group
        [Claim.mk [] "Hello".data ClaimType.other 0 5 [] [] [] 0 [],
         Claim.mk [] "World".data ClaimType.other 5 10 [] [] [] 0 []]).text.length =
      (merge_claim_group
        [Claim.mk [] "Hello".data ClaimType.other 0 5 [] [] [] 0 [],
         Claim.mk [] "World".data ClaimType.other 5 10 [] [] [] 0 []]).end_idx -
        (merge_claim_group
          [Claim.mk [] "Hello".data ClaimType.other 0 5 [] [] [] 0 [],
           Claim.mk [] "World".data ClaimType.other 5 10 [] [] [] 0 []]).start_idx :=
  (C6_merged_text_length (Claim.mk [] "Hello".data ClaimType.other 0 5 [] [] [] 0 [])
    [Claim.mk [] "World".data ClaimType.other 5 10 [] [] [] 0 []]).2
    (by decide) (by decide) (by decide) (by decide) (by decide) (by decide)

/-! ### C7: the evidence list attached by the source mapper -/

theorem filter_orderedInsert_score_eq (q : ℚ) :
    ∀ (l : List SourceReference) (x : SourceReference), x.alignment_score = q →
      (List.orderedInsert (fun a b => b.alignment_score ≤ a.alignment_score) x l).filter
          (fun s => s.alignment_score = q) =
        x :: l.filter (fun s => s.alignment_score = q)
  | [], x, hx => by simp [List.orderedInsert, hx]
  | y :: l, x, hx => by
    rw [List.orderedInsert]
    split
    · rw [List.filter_cons_of_pos (by simp [hx])]
    · next hyx =>
      have hylt : x.alignment_score < y.alignment_score := lt_of_not_le hyx
      have hy : ¬(y.alignment_score = q) := by
        intro he
        rw [he, hx] at hylt
        exact lt_irrefl _ hylt
      rw [List.filter_cons_of_neg (by simpa using hy),
        filter_orderedInsert_score_eq q l x hx,
        List.filter_cons_of_neg (by simpa using hy)]

theorem filter_orderedInsert_score_ne (q : ℚ) :
    ∀ (l : List SourceReference) (x : SourceReference), x.alignment_score ≠ q →
      (List.orderedInsert (fun a b => b.alignment_score ≤ a.alignment_score) x l).filter
          (fun s => s.alignment_score = q) =
        l.filter (fun s => s.alignment_score = q)
  | [], x, hx => by simp [List.orderedInsert, hx]
  | y :: l, x, hx => by
    rw [List.orderedInsert]
    split
    · rw [List.filter_cons_of_neg (by simpa using hx)]
    · by_cases hy : y.alignment_score = q
      · rw [List.filter_cons_of_pos (by simpa using hy),
          filter_orderedInsert_score_ne q l x hx,
          List.filter_cons_of_pos (by simpa using hy)]
      · rw [List.filter_cons_of_neg (by simpa using hy),
          filter_orderedInsert_score_ne q l x hx,
          List.filter_cons_of_neg (by simpa using hy)]

/-- Stability of the descending sort: for each alignment score, the
entries carrying that score appear in the sorted list exactly in their
original order — Python's `list.sort(…, reverse=True)` is stable. -/
theorem filter_insertionSort_score (q : ℚ) :
    ∀ l : List SourceReference,
      (List.insertionSort (fun a b => b.alignment_score ≤ a.alignment_score) l).filter
          (fun s => s.alignment_score = q) =
        l.filter (fun s => s.alignment_score = q)
  | [] => rfl
  | x :: l => by
    rw [List.insertionSort]
    by_cases hx : x.alignment_score = q
    · rw [filter_orderedInsert_score_eq q _ x hx, filter_insertionSort_score q l,
        List.filter_cons_of_pos (by simpa using hx)]
    · rw [filter_orderedInsert_score_ne q _ x hx, filter_insertionSort_score q l,
        List.filter_cons_of_neg (by simpa using hx)]

/-- C7 (amended): the evidence list the mapper attaches to a claim
contains no fragment scoring *strictly below* the configured minimum
alignment score (a fragment scoring exactly at the threshold is kept,
since the code filters with `>=`), is sorted descending by alignment score
with ties kept in retrieval order (stable sort), and has at most
`max_sources_per_claim` entries (default 3). -/
theorem C7_evidence_filter_sort_cap :
    ∀ (cfg : MapperConfig) (store : DocumentStore) (c : Claim),
      (∀ s ∈ (map_claim cfg store c).sources,
        cfg.min_alignment_score ≤ s.alignment_score) ∧
      List.Pairwise (fun a b : SourceReference => b.alignment_score ≤ a.alignment_score)
        (map_claim cfg store c).sources ∧
      (map_claim cfg store c).sources.length ≤ cfg.max_sources_per_claim ∧
      (∀ claims : List Claim,
        map_to_sources cfg claims store = claims.map (map_claim cfg store)) ∧
      (∀ q : ℚ,
        ((map_claim cfg store c).sources.filter (fun s => s.alignment_score = q)) <+:
          ((valid_sources cfg c store).filter (fun s => s.alignment_score = q))) := by
  intro cfg store c
  have hsrc : (map_claim cfg store c).sources =
      (List.insertionSort (fun a b => b.alignment_score ≤ a.alignment_score)
        (valid_sources cfg c store)).take cfg.max_sources_per_claim := rfl
  letI : IsTotal SourceReference
      (fun a b => b.alignment_score ≤ a.alignment_score) :=
    ⟨fun a b => le_total b.alignment_score a.alignment_score⟩
  letI : IsTrans SourceReference
      (fun a b => b.alignment_score ≤ a.alignment_score) :=
    ⟨fun _ _ _ h1 h2 => le_trans h2 h1⟩
  refine ⟨?_, ?_, ?_, fun _ => rfl, ?_⟩
  · intro s hs
    rw [hsrc] at hs
    have hmem : s ∈ valid_sources cfg c store :=
      (List.mem_insertionSort _).mp (List.mem_of_mem_take hs)
    rw [valid_sources, List.mem_filter] at hmem
    exact of_decide_eq_true hmem.2
  · rw [hsrc]
    exact List.Pairwise.take
      (List.sorted_insertionSort
        (fun a b : SourceReference => b.alignment_score ≤ a.alignment_score)
        (valid_sources cfg c store))
  · rw [hsrc]
    exact List.length_take_le _ _
  · intro q
    rw [hsrc]
    calc
      ((List.insertionSort (fun a b => b.alignment_score ≤ a.alignment_score)
            (valid_sources cfg c store)).take cfg.max_sources_per_claim).filter
          (fun s => s.alignment_score = q) <+:
        (List.insertionSort (fun a b => b.alignment_score ≤ a.alignment_score)
            (valid_sources cfg c store)).filter (fun s => s.alignment_score = q) :=
        List.IsPrefix.filter _ (List.take_prefix _ _)
      _ = (valid_sources cfg c store).filter (fun s => s.alignment_score = q) :=
        filter_insertionSort_score q _

/-- A claim whose token set against `c7_chunk` gives a Jaccard similarity
of exactly `3/5 = 0.6`, the default minimum alignment score. -/
def c7_claim : Claim :=
  { id := [], text := "alpha beta gamma".data, type := ClaimType.other,
    start_idx := 0, end_idx := 16 }

/-- The chunk sharing three of five tokens with `c7_claim`. -/
def c7_chunk : DocumentChunk :=
  { id := "k1".data, text := "alpha beta gamma delta epsil".data,
    source_document := "d2".data }

theorem c7_generic_score :
    score_generic_claim {} c7_claim c7_chunk = 3 / 5 := by
  simp only [score_generic_claim]
  rw [if_neg (by decide)]
  rw [show pySetInterCard (alphaTokens 3 (pyLower c7_claim.text))
      (alphaTokens 3 (pyLower c7_chunk.text)) = 3 from by decide]
  rw [show pySetUnionCard (alphaTokens 3 (pyLower c7_claim.text))
      (alphaTokens 3 (pyLower c7_chunk.text)) = 5 from by decide]
  rw [if_neg (by decide)]
  rw [show c7_claim.entities.isEmpty = true from by decide]
  norm_num

/-- Counterexample for C7 as stated: with the default configuration
(minimum alignment score 0.6) the fragment scores exactly 3/5 = 0.6 —
*at* the threshold — and is nonetheless kept as evidence, because the
code keeps fragments with `alignment_score >= min_alignment_score`.  So
the evidence list does contain a fragment scoring at (hence "at or
below") the threshold. -/
theorem C7_counterexample_at_threshold_kept :
    ((map_claim {} (DocumentStore.mk [c7_chunk]) c7_claim).sources.map
        SourceReference.alignment_score = [3 / 5]) ∧
      (3 / 5 : ℚ) ≤ ({} : MapperConfig).min_alignment_score := by
  have halign : calculate_alignment_score {} c7_claim c7_chunk = 3 / 5 := by
    rw [calculate_alignment_score, if_neg (by decide), if_neg (by decide)]
    exact c7_generic_score
  have hpot : find_potential_sources {} c7_claim (DocumentStore.mk [c7_chunk]) =
      [c7_chunk] := by decide
  have hscored : score_sources {} c7_claim [c7_chunk] =
      [{ chunk_id := c7_chunk.id, document_id := c7_chunk.source_document,
         text_excerpt := extract_relevant_excerpt c7_claim c7_chunk,
         alignment_score := 3 / 5,
         context := { boundary_type := Option.none, parent_section := Option.none } }] := by
    simp only [score_sources, List.filterMap_cons, List.filterMap_nil, halign]
    rw [if_pos (by norm_num)]
    rfl
  have hvalid : valid_sources {} c7_claim (DocumentStore.mk [c7_chunk]) =
      [{ chunk_id := c7_chunk.id, document_id := c7_chunk.source_document,
         text_excerpt := extract_relevant_excerpt c7_claim c7_chunk,
         alignment_score := 3 / 5,
         context := { boundary_type := Option.none, parent_section := Option.none } }] := by
    rw [valid_sources, hpot, hscored]
    rw [List.filter_cons_of_pos]
    · rfl
    · simp only [decide_eq_true_eq]
      norm_num
  constructor
  · show ((List.insertionSort _ (valid_sources {} c7_claim (DocumentStore.mk [c7_chunk]))).take
        ({} : MapperConfig).max_sources_per_claim).map SourceReference.alignment_score = _
    rw [hvalid]
    rfl
  · norm_num

/-! ### C3: merging never grows the claim list; idempotence -/

theorem mergeGroupGo_length (cfg : MergerConfig) :
    ∀ (rest accRev : List Claim) (prev : Claim),
      (mergeGroupGo cfg accRev prev rest).length ≤ rest.length + 1
  | [], _, _ => by simp [mergeGroupGo]
  | c :: rest, accRev, prev => by
    rw [mergeGroupGo]
    split
    · exact Nat.le_trans (mergeGroupGo_length cfg rest _ c) (by simp)
    · simpa using Nat.succ_le_succ (mergeGroupGo_length cfg rest [] c)

theorem mergeGroupGo_flatten (cfg : MergerConfig) :
    ∀ (rest accRev : List Claim) (prev : Claim),
      (mergeGroupGo cfg accRev prev rest).flatten = accRev.reverse ++ prev :: rest
  | [], accRev, prev => by simp [mergeGroupGo]
  | c :: rest, accRev, prev => by
    rw [mergeGroupGo]
    split
    · rw [mergeGroupGo_flatten cfg rest (prev :: accRev) c]
      simp
    · rw [List.flatten_cons, mergeGroupGo_flatten cfg rest [] c]
      simp

theorem mergeGroupGo_ne_nil (cfg : MergerConfig) :
    ∀ (rest accRev : List Claim) (prev : Claim),
      ∀ g ∈ mergeGroupGo cfg accRev prev rest, g ≠ []
  | [], accRev, prev => by
    intro g hg
    simp only [mergeGroupGo, List.mem_singleton] at hg
    subst hg
    simp
  | c :: rest, accRev, prev => by
    intro g hg
    rw [mergeGroupGo] at hg
    split at hg
    · exact mergeGroupGo_ne_nil cfg rest _ c g hg
    · rcases List.mem_cons.mp hg with h | h
      · subst h
        simp
      · exact mergeGroupGo_ne_nil cfg rest [] c g h

theorem mergeGroupGo_first_head (cfg : MergerConfig) :
    ∀ (rest accRev : List Claim) (prev : Claim),
      ((mergeGroupGo cfg accRev prev rest).headD []).head? =
        (accRev.reverse ++ [prev]).head?
  | [], accRev, prev => by simp [mergeGroupGo]
  | c :: rest, accRev, prev => by
    rw [mergeGroupGo]
    split
    · rw [mergeGroupGo_first_head cfg rest (prev :: accRev) c]
      simp [List.head?_append]
    · simp

theorem mergeGroupGo_chain_within (cfg : MergerConfig) :
    ∀ (rest accRev : List Claim) (prev : Claim),
      List.Chain' (fun a b => mergeableAfter cfg a b = true) (accRev.reverse ++ [prev]) →
      ∀ g ∈ mergeGroupGo cfg accRev prev rest,
        List.Chain' (fun a b => mergeableAfter cfg a b = true) g
  | [], accRev, prev => by
    intro hch g hg
    simp only [mergeGroupGo, List.mem_singleton] at hg
    subst hg
    simpa using hch
  | c :: rest, accRev, prev => by
    intro hch g hg
    rw [mergeGroupGo] at hg
    split at hg
    · next hm =>
      refine mergeGroupGo_chain_within cfg rest (prev :: accRev) c ?_ g hg
      rw [List.reverse_cons]
      rw [show accRev.reverse ++ [prev] ++ [c] = (accRev.reverse ++ [prev]) ++ [c] from rfl]
      rw [List.chain'_append]
      refine ⟨hch, List.chain'_singleton c, ?_⟩
      intro x hx y hy
      rw [List.getLast?_concat] at hx
      cases hx
      cases hy
      exact hm
    · rcases List.mem_cons.mp hg with h | h
      · subst h
        simpa using hch
      · exact mergeGroupGo_chain_within cfg rest [] c (by simp) g h

theorem mergeGroupGo_boundary_chain (cfg : MergerConfig) :
    ∀ (rest accRev : List Claim) (prev : Claim),
      List.Chain'
        (fun g g' => mergeableAfter cfg (g.getLastD emptyGroupClaim)
          (g'.headD emptyGroupClaim) = false)
        (mergeGroupGo cfg accRev prev rest)
  | [], accRev, prev => by simp [mergeGroupGo]
  | c :: rest, accRev, prev => by
    rw [mergeGroupGo]
    split
    · exact mergeGroupGo_boundary_chain cfg rest (prev :: accRev) c
    · next hm =>
      rw [List.chain'_cons']
      refine ⟨?_, mergeGroupGo_boundary_chain cfg rest [] c⟩
      intro g' hg'
      have hhead : g'.head? = some c := by
        have h1 := mergeGroupGo_first_head cfg rest [] c
        have h2 : (mergeGroupGo cfg [] c rest).headD [] = g' := by
          cases hgo : mergeGroupGo cfg [] c rest with
          | nil => rw [hgo] at hg'; cases hg'
          | cons a l =>
            rw [hgo] at hg'
            simp only [List.head?_cons, Option.mem_def, Option.some.injEq] at hg'
            subst hg'
            simp
        rw [h2] at h1
        simpa using h1
      have hlast : (List.reverse (prev :: accRev)).getLastD emptyGroupClaim = prev := by
        rw [List.reverse_cons]
        rw [List.getLastD_eq_getLast?, List.getLast?_concat]
        rfl
      rw [hlast]
      have : g'.headD emptyGroupClaim = c := by
        cases g' with
        | nil => simp at hhead
        | cons a l =>
          simp only [List.head?_cons, Option.some.injEq] at hhead
          simp [hhead]
      rw [this]
      simpa using hm

theorem mergeGroupGo_all_singletons (cfg : MergerConfig) :
    ∀ (rest : List Claim) (prev : Claim),
      List.Chain' (fun a b => mergeableAfter cfg a b = false) (prev :: rest) →
      mergeGroupGo cfg [] prev rest = (prev :: rest).map (fun c => [c])
  | [], prev, _ => by simp [mergeGroupGo]
  | c :: rest, prev, h => by
    rw [mergeGroupGo]
    have h1 : mergeableAfter cfg prev c = false := (List.chain'_cons.mp h).1
    rw [if_neg (by simp [h1])]
    rw [mergeGroupGo_all_singletons cfg rest c (List.chain'_cons.mp h).2]
    simp

theorem foldl_min_start_eq_init :
    ∀ (rest : List Claim) (i : Nat), (∀ x ∈ rest, i ≤ x.start_idx) →
      rest.foldl (fun a c => Nat.min a c.start_idx) i = i
  | [], _, _ => rfl
  | c :: rest, i, h => by
    rw [List.foldl_cons]
    have hm : Nat.min i c.start_idx = i :=
      Nat.min_eq_left (h c (List.mem_cons_self _ _))
    rw [hm]
    exact foldl_min_start_eq_init rest i (fun x hx => h x (List.mem_cons_of_mem _ hx))

theorem le_foldl_max_end_init :
    ∀ (rest : List Claim) (i : Nat),
      i ≤ rest.foldl (fun a c => Nat.max a c.end_idx) i
  | [], _ => Nat.le_refl _
  | c :: rest, i => by
    rw [List.foldl_cons]
    exact Nat.le_trans (Nat.le_max_left _ _) (le_foldl_max_end_init rest _)

theorem le_foldl_max_end_mem :
    ∀ (rest : List Claim) (i : Nat) (c : Claim), c ∈ rest →
      c.end_idx ≤ rest.foldl (fun a c => Nat.max a c.end_idx) i
  | [], _, _, h => absurd h (List.not_mem_nil _)
  | d :: rest, i, c, h => by
    rw [List.foldl_cons]
    rcases List.mem_cons.mp h with rfl | h2
    · exact Nat.le_trans (Nat.le_max_right _ _) (le_foldl_max_end_init rest _)
    · exact le_foldl_max_end_mem rest _ c h2

theorem foldl_max_end_le :
    ∀ (rest : List Claim) (i m : Nat), i ≤ m → (∀ x ∈ rest, x.end_idx ≤ m) →
      rest.foldl (fun a c => Nat.max a c.end_idx) i ≤ m
  | [], _, _, hi, _ => hi
  | c :: rest, i, m, hi, h => by
    rw [List.foldl_cons]
    exact foldl_max_end_le rest _ m
      (Nat.max_le.mpr ⟨hi, h c (List.mem_cons_self _ _)⟩)
      (fun x hx => h x (List.mem_cons_of_mem _ hx))

theorem getLastD_mem :
    ∀ (l : List Claim) (d : Claim), l ≠ [] → l.getLastD d ∈ l
  | [], _, h => absurd rfl h
  | [c], _, _ => by simp
  | c :: c2 :: l, _, _ => by
    have ih := getLastD_mem (c2 :: l) c (by simp)
    exact List.mem_cons_of_mem _ ih

theorem pairwise_end_le_getLastD :
    ∀ (l : List Claim) (d : Claim),
      List.Pairwise (fun a b : Claim => a.end_idx ≤ b.end_idx) l →
      ∀ x ∈ l, x.end_idx ≤ (l.getLastD d).end_idx
  | [], _, _, x, hx => absurd hx (List.not_mem_nil _)
  | [c], _, _, x, hx => by
    rcases List.mem_singleton.mp hx with rfl
    simp
  | c :: c2 :: l, d, hp, x, hx => by
    have hlast : ((c :: c2 :: l).getLastD d) = ((c2 :: l).getLastD c) := rfl
    rw [hlast]
    rcases List.mem_cons.mp hx with h1 | h2
    · rw [h1]
      exact (List.pairwise_cons.mp hp).1 _ (getLastD_mem (c2 :: l) c (by simp))
    · exact pairwise_end_le_getLastD (c2 :: l) c (List.pairwise_cons.mp hp).2 x h2

theorem mergeableAfter_type_eq {cfg : MergerConfig} {a b : Claim}
    (hst : cfg.merge_same_type = true) (h : mergeableAfter cfg a b = true) :
    b.type = a.type := by
  rw [mergeableAfter, hst] at h
  simp only [Bool.not_true, Bool.false_or, Bool.and_eq_true, decide_eq_true_eq] at h
  exact h.2

theorem chain_mergeable_type_const {cfg : MergerConfig} (hst : cfg.merge_same_type = true) :
    ∀ (l : List Claim) (c0 : Claim),
      List.Chain' (fun a b => mergeableAfter cfg a b = true) (c0 :: l) →
      ∀ x ∈ c0 :: l, x.type = c0.type
  | [], c0, _, x, hx => by
    rcases List.mem_singleton.mp hx with rfl
    rfl
  | c1 :: l, c0, h, x, hx => by
    have h1 : mergeableAfter cfg c0 c1 = true := (List.chain'_cons.mp h).1
    have hty : c1.type = c0.type := mergeableAfter_type_eq hst h1
    rcases List.mem_cons.mp hx with rfl | h2
    · rfl
    · rw [← hty]
      exact chain_mergeable_type_const hst l c1 (List.chain'_cons.mp h).2 x h2

theorem foldl_priority_type_const :
    ∀ (rest : List Claim) (init : Claim) (t : ClaimType), init.type = t →
      (∀ x ∈ rest, x.type = t) →
      (rest.foldl
        (fun a c => if claimTypePriority a.type < claimTypePriority c.type then c else a)
        init).type = t
  | [], init, _, hi, _ => hi
  | c :: rest, init, t, hi, h => by
    rw [List.foldl_cons]
    have hc : c.type = t := h c (List.mem_cons_self _ _)
    have : (if claimTypePriority init.type < claimTypePriority c.type then c else init) =
        init := by
      rw [hi, hc]
      simp
    rw [this]
    exact foldl_priority_type_const rest init t hi (fun x hx => h x (List.mem_cons_of_mem _ hx))

theorem passthrough_start (g : List Claim) (hne : g ≠ [])
    (hsorted : List.Pairwise (fun a b : Claim => a.start_idx ≤ b.start_idx) g) :
    (merge_group_passthrough g).start_idx = (g.headD emptyGroupClaim).start_idx := by
  match g with
  | [] => exact absurd rfl hne
  | [c] => rfl
  | c0 :: c1 :: rest =>
    show (merge_claim_group (c0 :: c1 :: rest)).start_idx = c0.start_idx
    have heq : (merge_claim_group (c0 :: c1 :: rest)).start_idx =
        (c1 :: rest).foldl (fun a c => Nat.min a c.start_idx) c0.start_idx := rfl
    rw [heq]
    exact foldl_min_start_eq_init (c1 :: rest) c0.start_idx
      (fun x hx => (List.pairwise_cons.mp hsorted).1 x hx)

theorem passthrough_end (g : List Claim) (hne : g ≠ [])
    (hend : List.Pairwise (fun a b : Claim => a.end_idx ≤ b.end_idx) g) :
    (merge_group_passthrough g).end_idx = (g.getLastD emptyGroupClaim).end_idx := by
  match g with
  | [] => exact absurd rfl hne
  | [c] => rfl
  | c0 :: c1 :: rest =>
    show (merge_claim_group (c0 :: c1 :: rest)).end_idx =
      ((c0 :: c1 :: rest).getLastD emptyGroupClaim).end_idx
    have heq : (merge_claim_group (c0 :: c1 :: rest)).end_idx =
        (c1 :: rest).foldl (fun a c => Nat.max a c.end_idx) c0.end_idx := rfl
    rw [heq]
    have hall := pairwise_end_le_getLastD (c0 :: c1 :: rest) emptyGroupClaim hend
    apply Nat.le_antisymm
    · exact foldl_max_end_le (c1 :: rest) _ _
        (hall c0 (List.mem_cons_self _ _))
        (fun x hx => hall x (List.mem_cons_of_mem _ hx))
    · have hmem := getLastD_mem (c0 :: c1 :: rest) emptyGroupClaim (by simp)
      rcases List.mem_cons.mp hmem with h1 | h2
      · rw [h1]
        exact le_foldl_max_end_init (c1 :: rest) _
      · exact le_foldl_max_end_mem (c1 :: rest) _ _ h2

theorem passthrough_type {cfg : MergerConfig} (g : List Claim) (hne : g ≠ [])
    (hst : cfg.merge_same_type = true)
    (hch : List.Chain' (fun a b => mergeableAfter cfg a b = true) g) :
    (merge_group_passthrough g).type = (g.headD emptyGroupClaim).type ∧
      (merge_group_passthrough g).type = (g.getLastD emptyGroupClaim).type := by
  match g with
  | [] => exact absurd rfl hne
  | [c] => exact ⟨rfl, rfl⟩
  | c0 :: c1 :: rest =>
    have hall := chain_mergeable_type_const hst (c1 :: rest) c0 hch
    have hty : (merge_claim_group (c0 :: c1 :: rest)).type = c0.type := by
      have heq : (merge_claim_group (c0 :: c1 :: rest)).type =
          ((c1 :: rest).foldl
            (fun a c => if claimTypePriority a.type < claimTypePriority c.type then c else a)
            c0).type := rfl
      rw [heq]
      exact foldl_priority_type_const (c1 :: rest) c0 c0.type rfl
        (fun x hx => hall x (List.mem_cons_of_mem _ hx))
    refine ⟨hty, ?_⟩
    have hmem := getLastD_mem (c0 :: c1 :: rest) emptyGroupClaim (by simp)
    have hlast := hall _ hmem
    show (merge_claim_group (c0 :: c1 :: rest)).type = _
    rw [hty]
    exact hlast.symm

theorem mergeableAfter_passthrough_eq (cfg : MergerConfig) (g g' : List Claim)
    (hg_ne : g ≠ []) (hg'_ne : g' ≠ [])
    (hg_end : List.Pairwise (fun a b : Claim => a.end_idx ≤ b.end_idx) g)
    (hg'_sorted : List.Pairwise (fun a b : Claim => a.start_idx ≤ b.start_idx) g')
    (hch_g : List.Chain' (fun a b => mergeableAfter cfg a b = true) g)
    (hch_g' : List.Chain' (fun a b => mergeableAfter cfg a b = true) g') :
    mergeableAfter cfg (merge_group_passthrough g) (merge_group_passthrough g') =
      mergeableAfter cfg (g.getLastD emptyGroupClaim) (g'.headD emptyGroupClaim) := by
  rw [mergeableAfter, mergeableAfter]
  rw [passthrough_start g' hg'_ne hg'_sorted, passthrough_end g hg_ne hg_end]
  cases hst : cfg.merge_same_type with
  | false => simp
  | true =>
    rw [(passthrough_type g hg_ne hst hch_g).2,
      (passthrough_type g' hg'_ne hst hch_g').1]

theorem chain'_imp_of_mem {α : Type} {R S : α → α → Prop} :
    ∀ {l : List α}, (∀ a ∈ l, ∀ b ∈ l, R a b → S a b) → List.Chain' R l → List.Chain' S l
  | [], _, _ => List.chain'_nil
  | [_], _, _ => List.chain'_singleton _
  | a :: b :: l, h, hch => by
    rw [List.chain'_cons] at hch ⊢
    refine ⟨h a (by simp) b (by simp) hch.1, ?_⟩
    exact chain'_imp_of_mem
      (fun x hx y hy hr => h x (List.mem_cons_of_mem _ hx) y (List.mem_cons_of_mem _ hy) hr)
      hch.2

theorem map_headD_sublist :
    ∀ (gs : List (List Claim)), (∀ g ∈ gs, g ≠ []) →
      List.Sublist (gs.map (fun g => g.headD emptyGroupClaim)) gs.flatten
  | [], _ => List.Sublist.refl _
  | g :: gs, h => by
    match g, h g (List.mem_cons_self _ _) with
    | c :: tl, _ =>
      rw [List.map_cons, List.flatten_cons]
      show List.Sublist (c :: _) (c :: (tl ++ gs.flatten))
      apply List.Sublist.cons₂
      exact (map_headD_sublist gs
        (fun g2 hg2 => h g2 (List.mem_cons_of_mem _ hg2))).trans
        (List.sublist_append_right _ _)

theorem sort_by_start_sorted (C : List Claim) :
    List.Pairwise (fun a b : Claim => a.start_idx ≤ b.start_idx) (sort_by_start C) := by
  rw [sort_by_start]
  letI : IsTotal Claim (fun a b : Claim => a.start_idx ≤ b.start_idx) :=
    ⟨fun a b => Nat.le_total _ _⟩
  letI : IsTrans Claim (fun a b : Claim => a.start_idx ≤ b.start_idx) :=
    ⟨fun _ _ _ => Nat.le_trans⟩
  exact List.sorted_insertionSort _ C

theorem merge_claims_length_le (cfg : MergerConfig) (C : List Claim) :
    (merge_claims cfg C).length ≤ C.length := by
  have hlc : (sort_by_start C).length = C.length := by
    rw [sort_by_start]; exact List.length_insertionSort _ _
  simp only [merge_claims]
  split
  · exact Nat.le_refl _
  · cases hs : sort_by_start C with
    | nil => simp
    | cons h t =>
      show ((mergeGroupGo cfg [] h t).map merge_group_passthrough).length ≤ C.length
      calc ((mergeGroupGo cfg [] h t).map merge_group_passthrough).length
          = (mergeGroupGo cfg [] h t).length := by rw [List.length_map]
        _ ≤ t.length + 1 := mergeGroupGo_length cfg t [] h
        _ = (h :: t).length := rfl
        _ = (sort_by_start C).length := by rw [hs]
        _ = C.length := hlc

theorem merge_claims_of_grouped (cfg : MergerConfig) (M : List Claim)
    (hM_sorted : List.Pairwise (fun a b : Claim => a.start_idx ≤ b.start_idx) M)
    (hMchain : List.Chain' (fun a b => mergeableAfter cfg a b = false) M) :
    merge_claims cfg M = M := by
  by_cases hM1 : M.length ≤ 1
  · rw [merge_claims, if_pos hM1]
  · have hsortM : sort_by_start M = M := by
      rw [sort_by_start]
      exact List.Sorted.insertionSort_eq hM_sorted
    cases hMc : M with
    | nil => rw [hMc] at hM1; simp at hM1
    | cons h' t' =>
      rw [hMc] at hM1 hsortM hMchain
      simp only [merge_claims]
      rw [if_neg hM1, hsortM]
      show (mergeGroupGo cfg [] h' t').map merge_group_passthrough = h' :: t'
      rw [mergeGroupGo_all_singletons cfg t' h' hMchain, List.map_map]
      show List.map id (h' :: t') = h' :: t'
      exact List.map_id _

/-- Nested-overlap counterexample claims for the merger: a long claim, a
claim nested strictly inside it, and a third claim just out of merging
range of the nested claim but within range of the merged span. -/
def c3a : Claim :=
  { id := [], text := [], type := ClaimType.other, start_idx := 0, end_idx := 100 }

def c3b : Claim :=
  { id := [], text := [], type := ClaimType.other, start_idx := 5, end_idx := 10 }

def c3c : Claim :=
  { id := [], text := [], type := ClaimType.other, start_idx := 115, end_idx := 120 }

/-- Two well-separated, non-nested claims on which merging is settled in
one pass. -/
def c3w1 : Claim :=
  { id := [], text := [], type := ClaimType.other, start_idx := 0, end_idx := 5 }

def c3w2 : Claim :=
  { id := [], text := [], type := ClaimType.other, start_idx := 30, end_idx := 35 }

/-- **C3.** `ClaimMerger.merge_claims` never increases the number of
claims, and it is idempotent whenever the input claims, sorted by start
offset, also have non-decreasing end offsets (no claim is nested strictly
inside an earlier, longer one) — under that proviso every group collapses
to a claim whose span ends where the group's last claim ends, so adjacent
output claims remain unmergeable and a second pass changes nothing. -/
theorem C3_merge_length_idempotent (cfg : MergerConfig) (C : List Claim) :
    (merge_claims cfg C).length ≤ C.length ∧
      (List.Pairwise (fun a b : Claim => a.end_idx ≤ b.end_idx) (sort_by_start C) →
        merge_claims cfg (merge_claims cfg C) = merge_claims cfg C) := by
  refine ⟨merge_claims_length_le cfg C, fun hH => ?_⟩
  by_cases hc : C.length ≤ 1
  · have h1 : merge_claims cfg C = C := by rw [merge_claims, if_pos hc]
    rw [h1]
    exact h1
  · cases hs : sort_by_start C with
    | nil =>
      exfalso
      have h0 := congrArg List.length hs
      rw [sort_by_start, List.length_insertionSort] at h0
      simp only [List.length_nil] at h0
      omega
    | cons h t =>
      have hM : merge_claims cfg C =
          (mergeGroupGo cfg [] h t).map merge_group_passthrough := by
        simp only [merge_claims]
        rw [if_neg hc, hs]
      have hS_sorted : List.Pairwise
          (fun a b : Claim => a.start_idx ≤ b.start_idx) (h :: t) := by
        rw [← hs]; exact sort_by_start_sorted C
      have hS_end : List.Pairwise
          (fun a b : Claim => a.end_idx ≤ b.end_idx) (h :: t) := by
        rw [← hs]; exact hH
      have hflat : (mergeGroupGo cfg [] h t).flatten = h :: t := by
        have h2 := mergeGroupGo_flatten cfg t [] h
        simpa using h2
      have hne := mergeGroupGo_ne_nil cfg t [] h
      have hsub : ∀ g ∈ mergeGroupGo cfg [] h t, List.Sublist g (h :: t) := by
        intro g hg
        rw [← hflat]
        exact List.sublist_flatten_of_mem hg
      have hg_sorted : ∀ g ∈ mergeGroupGo cfg [] h t,
          List.Pairwise (fun a b : Claim => a.start_idx ≤ b.start_idx) g :=
        fun g hg => hS_sorted.sublist (hsub g hg)
      have hg_end : ∀ g ∈ mergeGroupGo cfg [] h t,
          List.Pairwise (fun a b : Claim => a.end_idx ≤ b.end_idx) g :=
        fun g hg => hS_end.sublist (hsub g hg)
      have hg_chain : ∀ g ∈ mergeGroupGo cfg [] h t,
          List.Chain' (fun a b => mergeableAfter cfg a b = true) g :=
        mergeGroupGo_chain_within cfg t [] h (by simp)
      have hMchain : List.Chain' (fun a b : Claim => mergeableAfter cfg a b = false)
          ((mergeGroupGo cfg [] h t).map merge_group_passthrough) := by
        rw [List.chain'_map]
        refine chain'_imp_of_mem ?_ (mergeGroupGo_boundary_chain cfg t [] h)
        intro g hg g2 hg2 hr
        rw [mergeableAfter_passthrough_eq cfg g g2 (hne g hg) (hne g2 hg2)
          (hg_end g hg) (hg_sorted g2 hg2) (hg_chain g hg) (hg_chain g2 hg2)]
        exact hr
      have hheads : List.Pairwise (fun a b : Claim => a.start_idx ≤ b.start_idx)
          ((mergeGroupGo cfg [] h t).map (fun g => g.headD emptyGroupClaim)) := by
        apply hS_sorted.sublist
        rw [← hflat]
        exact map_headD_sublist _ hne
      have hM_sorted : List.Pairwise (fun a b : Claim => a.start_idx ≤ b.start_idx)
          ((mergeGroupGo cfg [] h t).map merge_group_passthrough) := by
        rw [List.pairwise_map]
        refine (List.pairwise_map.mp hheads).imp_of_mem ?_
        intro a b ha hb hr
        rw [passthrough_start a (hne a ha) (hg_sorted a ha),
          passthrough_start b (hne b hb) (hg_sorted b hb)]
        exact hr
      rw [hM]
      exact merge_claims_of_grouped cfg _ hM_sorted hMchain

/-- With nested overlapping spans the literal claim fails: merging
`[c3a, c3b, c3c]` once yields two claims (the merged `[0,100]` span and
`[115,120]`), but the widened span now reaches the third claim, so a
second pass merges again — `merge(merge(C)) ≠ merge(C)`. -/
theorem C3_counterexample_nested_overlap :
    (merge_claims {} (merge_claims {} [c3a, c3b, c3c])).length ≠
      (merge_claims {} [c3a, c3b, c3c]).length := by decide

/-- Witness for C3 at a concrete input: two disjoint, non-nested claims
satisfy the non-decreasing-ends hypothesis, and merging them is
idempotent. -/
theorem C3_merge_length_idempotent_witness :
    List.Pairwise (fun a b : Claim => a.end_idx ≤ b.end_idx)
        (sort_by_start [c3w1, c3w2]) ∧
      merge_claims {} (merge_claims {} [c3w1, c3w2]) = merge_claims {} [c3w1, c3w2] :=
  ⟨by decide, (C3_merge_length_idempotent {} [c3w1, c3w2]).2 (by decide)⟩
